import Mathlib

/-!
# IntegratedLLM: a verification development of `integrated_llm.cpp`

A `std::string` / C string is a `List Char` (one `Char` per `char`); a
`const char*` argument is an `Option (List Char)`, `none` being the null pointer.
The `int` score counters of `retrieve_context` are natural numbers (a query
holds far fewer than `2^31` words). The build without `_DEBUG` is modelled;
output to `std::cout` and memory exhaustion (a failing `malloc`, `bad_alloc`)
are left out. The exception that `std::filesystem::exists` can throw is part
of the model of `init`.
-/

namespace IntegratedLLM

/-! ## Knowledge store (`knowledge_base`, `add_knowledge`, `load_knowledge_file`,
`retrieve_context`) -/

/-- The `std::isspace` test of the classic locale, which `operator>>` uses to
delimit words: space, `\t`, `\n`, `\v`, `\f`, `\r`. -/
def isspace (c : Char) : Bool :=
  c == ' ' || c == '\t' || c == '\n' || c == '\x0b' || c == '\x0c' || c == '\r'

/-- `iss_q >> word`: skip leading whitespace, then extract characters up to the
next whitespace or the end of the stream. `none` when no character was
extracted (the stream fails); otherwise the word and the rest of the stream. -/
def extract (iss : List Char) : Option (List Char × List Char) :=
  match iss.dropWhile isspace with
  | [] => none
  | c :: cs =>
    some ((c :: cs).takeWhile (fun x => !isspace x), (c :: cs).dropWhile (fun x => !isspace x))

/-- `doc.find(word, pos)` scanning from a suffix of `doc` that starts at index
`i`: the lowest index at which `word` occurs, `none` standing for `npos`. -/
def findFrom (word : List Char) : List Char → Nat → Option Nat
  | [], i => if word = [] then some i else none
  | c :: cs, i => if word.isPrefixOf (c :: cs) then some i else findFrom word cs (i + 1)

/-- `doc.find(word)`. -/
def find (doc word : List Char) : Option Nat := findFrom word doc 0

/-- The inner loop `while (iss_q >> word) { if (doc.find(word) != npos) score++; }`
of `retrieve_context`. Every extraction consumes a character, so the length of
the stream bounds the number of iterations. -/
def scoreLoop (doc : List Char) : Nat → List Char → Nat → Nat
  | 0, _, score => score
  | fuel + 1, iss, score =>
    match extract iss with
    | none => score
    | some (word, rest) =>
      scoreLoop doc fuel rest (if (find doc word).isSome then score + 1 else score)

/-- The body of the `for (const auto& doc : knowledge_base)` loop: `score` is
computed from a fresh stream over `question`, then compared with `max_score`. -/
def scoreOf (question doc : List Char) : Nat :=
  scoreLoop doc (question.length + 1) question 0

/-- One iteration of the outer loop on the pair `(max_score, best_match)`. -/
def retrieveStep (question : List Char) (st : Nat × List Char) (doc : List Char) :
    Nat × List Char :=
  if scoreOf question doc > st.1 then (scoreOf question doc, doc) else st

/-- `retrieve_context(question)` over the store `kb`. -/
def retrieve_context (kb : List (List Char)) (question : List Char) : List Char :=
  (kb.foldl (retrieveStep question) (0, [])).2

/-- `add_knowledge(doc)`: a null pointer is ignored, any other string is
pushed to the back of the store. -/
def add_knowledge (kb : List (List Char)) (doc : Option (List Char)) : List (List Char) :=
  match doc with
  | none => kb
  | some d => kb ++ [d]

/-- `load_knowledge_file(filepath)`: `lines` is what `std::getline` yields for
the file (`[]` for an unreadable file); empty lines are skipped. -/
def load_knowledge_file (kb : List (List Char)) (filepath : Option Unit)
    (lines : List (List Char)) : List (List Char) :=
  match filepath with
  | none => kb
  | some _ => lines.foldl (fun acc line => if line.isEmpty then acc else acc ++ [line]) kb

/-! ### Reference retrieval, following the specification's words -/

/-- The whitespace-delimited tokens of a query. -/
def specTokens (q : List Char) : List (List Char) :=
  (q.splitOnP isspace).filter (fun w => !w.isEmpty)

/-- Score of a document: the number of query tokens, counted with repetition,
that occur as a substring of the document. -/
def specScore (q doc : List Char) : Nat :=
  (specTokens q).countP (fun w => decide (w <:+: doc))

/-- The maximum score over the store (0 for the empty store). -/
def specMax (kb : List (List Char)) (q : List Char) : Nat :=
  (kb.map (specScore q)).foldr max 0

/-- Reference retrieval: the first document attaining a positive maximum,
otherwise the empty string. -/
def retrieve_reference (kb : List (List Char)) (q : List Char) : List Char :=
  if 0 < specMax kb q then
    (kb.find? (fun d => specScore q d == specMax kb q)).getD []
  else []


/-! ## The inference engine (`llama.h`) as an environment

The engine is external: its operations are fields of `Engine`, arbitrary
functions of the state `σ` of the inference context (key-value cache, logits
of the last decode, and whatever else the engine keeps). `M` is a loaded model,
`V` a vocabulary, `F` the type `float` with its addition, zero and NaN test.
Token ids (`llama_token`) and return codes are integers. -/

/-- One slot of a `llama_batch`: `token[i]`, `pos[i]`, `n_seq_id[i]`, `seq_id[i]`. -/
structure BatchEntry where
  token : Int
  pos : Nat
  n_seq_id : Nat
  seq_id : List Int
deriving DecidableEq, Repr

/-- A `llama_batch`; `n_tokens` is the length of the list. -/
abbrev Batch := List BatchEntry

/-- The struct `llama_token_data { id, logit, p }`. -/
structure TokenData (F : Type) where
  id : Int
  logit : F
  p : F

/-- The calls into the engine, recorded in the order in which they are made. -/
inductive Call where
  | llama_model_default_params
  | llama_model_load_from_file (path : List Char)
  | llama_context_default_params
  | llama_init_from_model
  | llama_model_free
  | llama_model_get_vocab
  | llama_vocab_n_tokens
  | llama_tokenize (text : List Char) (n_tokens_max : Nat)
  | llama_batch_init (n_tokens : Nat)
  | llama_decode (batch : Batch)
  | llama_batch_free
  | llama_sampler_init_greedy
  | llama_get_logits
  | llama_sampler_apply
  | llama_vocab_eos
  | llama_vocab_get_text (token : Int)
  | llama_sampler_free
deriving DecidableEq, Repr

/-- The values of a `float` as far as the NaN test of the generation loop can
tell them apart: a finite value (kept exact, rounding is left out), the two
infinities, and NaN. -/
inductive Flt where
  | finite (x : Int)
  | posInf
  | negInf
  | nan
deriving DecidableEq, Repr

/-- IEEE 754 addition on these values: NaN is absorbing, the sum of the two
opposite infinities is NaN, an infinity absorbs every finite value. -/
def Flt.add : Flt → Flt → Flt
  | .nan, _ => .nan
  | _, .nan => .nan
  | .posInf, .negInf => .nan
  | .negInf, .posInf => .nan
  | .posInf, _ => .posInf
  | _, .posInf => .posInf
  | .negInf, _ => .negInf
  | _, .negInf => .negInf
  | .finite x, .finite y => .finite (x + y)

/-- The test `std::isnan`. -/
def Flt.isnan : Flt → Bool
  | .nan => true
  | _ => false

/-- The comparison `a > b` of two floats; false when either is NaN. -/
def Flt.gt : Flt → Flt → Bool
  | .nan, _ => false
  | _, .nan => false
  | .posInf, .posInf => false
  | .posInf, _ => true
  | _, .posInf => false
  | .negInf, _ => false
  | .finite _, .negInf => true
  | .finite x, .finite y => decide (x > y)

/-- The greedy sampler of the engine on an array of candidates: `selected`
starts at 0 and moves to every later index whose logit is greater than the
logit of the current selection. -/
def greedySelect (data : List (TokenData Flt)) : Int :=
  ((List.range data.length).foldl
    (fun sel i =>
      match data.get? i, data.get? sel with
      | some a, some b => if a.logit.gt b.logit then i else sel
      | _, _ => sel) 0 : Nat)

/-- The environment of the service: the file system test used by `init`, the
operations of the engine, and `float` arithmetic. `file_exists` is
`std::filesystem::exists(path)`: `none` when the call throws
`filesystem_error` (the status of the path cannot be determined, as for an
over-long name). `llama_tokenize` returns its
return value together with the contents it left in the output buffer;
`llama_decode` returns its return code and the new state of the context;
`llama_sampler_apply` returns the `selected` index it stores in the array. -/
structure Engine (M V σ F : Type) where
  file_exists : List Char → Option Bool
  llama_model_load_from_file : List Char → Option M
  llama_init_from_model : M → Option σ
  llama_model_get_vocab : M → Option V
  llama_vocab_n_tokens : V → Nat
  llama_tokenize : V → List Char → Nat → Int × List Int
  llama_decode : σ → Batch → Int × σ
  llama_get_logits : σ → Nat → F
  llama_sampler_apply : σ → List (TokenData F) → Int
  llama_vocab_eos : V → Int
  llama_vocab_get_text : V → Int → Option (List Char)
  fzero : F
  fadd : F → F → F
  isnan : F → Bool

/-- The file-scope variables of `integrated_llm.cpp`. `inference_context` and
`loaded_model` are pointers to a `unique_ptr`: the outer option is the pointer,
the inner one what the `unique_ptr` holds. -/
structure State (M σ : Type) where
  inference_context : Option (Option σ)
  loaded_model : Option (Option M)
  last_model_response : List Char
  knowledge_base : List (List Char)

/-- The test `inference_context && inference_context->get()`. -/
def State.context {M σ : Type} (s : State M σ) : Option σ :=
  match s.inference_context with
  | some (some c) => some c
  | _ => none

/-- The expression `loaded_model ? loaded_model->get() : nullptr`. -/
def State.model {M σ : Type} (s : State M σ) : Option M :=
  match s.loaded_model with
  | some (some m) => some m
  | _ => none

/-- `init(model_path)`: returned code, new state, engine calls made. The code
is `none` when `std::filesystem::exists` throws: the exception leaves `init`,
which returns no value; nothing was changed or called before. -/
def init {M V σ F : Type} (E : Engine M V σ F) (s : State M σ)
    (model_path : Option (List Char)) : Option Int × State M σ × List Call :=
  match model_path with
  | none => (some 10, s, [])
  | some path =>
    match E.file_exists path with
    | none => (none, s, [])
    | some false => (some 10, s, [])
    | some true =>
      if s.context.isSome then (some 0, s, [])
      else
        match E.llama_model_load_from_file path with
        | none =>
          (some 1, s, [.llama_model_default_params, .llama_model_load_from_file path])
        | some model =>
          match E.llama_init_from_model model with
          | none =>
            (some 2, s,
              [.llama_model_default_params, .llama_model_load_from_file path,
               .llama_context_default_params, .llama_init_from_model, .llama_model_free])
          | some ctx =>
            (some 0,
              { s with loaded_model := some (some model),
                       inference_context := some (some ctx) },
              [.llama_model_default_params, .llama_model_load_from_file path,
               .llama_context_default_params, .llama_init_from_model])

/-- `tokens.resize(n)` on a vector of tokens. -/
def resize (l : List Int) (n : Nat) : List Int :=
  l.take n ++ List.replicate (n - l.length) 0

/-- The string `full_prompt` of `query`. -/
def full_prompt (kb : List (List Char)) (prompt : List Char) : List Char :=
  if (retrieve_context kb prompt).isEmpty then prompt
  else prompt ++ (' ' :: retrieve_context kb prompt)

/-- The batch filled by the loop of lines 206-213: slot `i` holds `tokens[i]`
at position `i`, with one sequence id, 0. -/
def promptBatch (tokens : List Int) : Batch :=
  tokens.enum.map (fun it => { token := it.2, pos := it.1, n_seq_id := 1, seq_id := [0] })

/-- The one-token batch `next_batch` of the generation loop. -/
def nextBatch (token : Int) (n_past : Nat) : Batch :=
  [{ token := token, pos := n_past, n_seq_id := 1, seq_id := [0] }]

/-- The array `token_data` after the loop of lines 274-277. -/
def tokenData {M V σ F : Type} (E : Engine M V σ F) (n_vocab : Nat) (ctx : σ) :
    List (TokenData F) :=
  (List.range n_vocab).map
    (fun (t : Nat) => { id := (t : Int), logit := E.llama_get_logits ctx t, p := E.fzero })

/-- The float `sum_logits` after the loop of lines 274-277. -/
def sumLogits {M V σ F : Type} (E : Engine M V σ F) (n_vocab : Nat) (ctx : σ) : F :=
  (List.range n_vocab).foldl (fun acc t => E.fadd acc (E.llama_get_logits ctx t)) E.fzero

/-- The variables the generation loop updates, and the calls made so far. -/
structure GenState (σ : Type) where
  last_model_response : List Char
  n_past : Nat
  ctx : σ
  calls : List Call

/-- One iteration of `for (int i = 0; i < 32; ++i)`: `false` when the
iteration leaves the loop with `break`. -/
def genStep {M V σ F : Type} (E : Engine M V σ F) (vocab : V) (n_vocab : Nat)
    (g : GenState σ) : Bool × GenState σ :=
  if E.isnan (sumLogits E n_vocab g.ctx) then
    (false, { g with calls := g.calls ++ [.llama_get_logits] })
  else
    let selected := E.llama_sampler_apply g.ctx (tokenData E n_vocab g.ctx)
    if selected < 0 ∨ selected ≥ (n_vocab : Int) then
      (false, { g with calls := g.calls ++ [.llama_get_logits, .llama_sampler_apply] })
    else
      let token := (((tokenData E n_vocab g.ctx).get? selected.toNat).map TokenData.id).getD 0
      if token = E.llama_vocab_eos vocab then
        (false, { g with calls := g.calls ++
          [.llama_get_logits, .llama_sampler_apply, .llama_vocab_eos] })
      else
        let response :=
          match E.llama_vocab_get_text vocab token with
          | some token_str => g.last_model_response ++ token_str
          | none => g.last_model_response
        let r := E.llama_decode g.ctx (nextBatch token g.n_past)
        (r.1 == 0,
          { last_model_response := response, n_past := g.n_past + 1, ctx := r.2,
            calls := g.calls ++
              [.llama_get_logits, .llama_sampler_apply, .llama_vocab_eos,
               .llama_vocab_get_text token, .llama_batch_init 1,
               .llama_decode (nextBatch token g.n_past), .llama_batch_free] })

/-- The loop `for (int i = 0; i < 32; ++i)` run for `n` more iterations. -/
def genLoop {M V σ F : Type} (E : Engine M V σ F) (vocab : V) (n_vocab : Nat) :
    Nat → GenState σ → GenState σ
  | 0, g => g
  | n + 1, g =>
    match genStep E vocab n_vocab g with
    | (true, g1) => genLoop E vocab n_vocab n g1
    | (false, g1) => g1

/-- The result of the `llama_tokenize` call of `query`: the buffer holds
`full_prompt.size() + 50` tokens. -/
def tokenizeResult {M V σ F : Type} (E : Engine M V σ F) (vocab : V)
    (kb : List (List Char)) (prompt : List Char) : Int × List Int :=
  E.llama_tokenize vocab (full_prompt kb prompt) ((full_prompt kb prompt).length + 50)

/-- The vector `tokens` after `tokens.resize(n_tokens)`. -/
def promptTokens {M V σ F : Type} (E : Engine M V σ F) (vocab : V)
    (kb : List (List Char)) (prompt : List Char) : List Int :=
  resize (resize (tokenizeResult E vocab kb prompt).2 ((full_prompt kb prompt).length + 50))
    (tokenizeResult E vocab kb prompt).1.toNat

/-- The text returned when `query` stops with a diagnostic. -/
def diagnostic {M σ : Type} (s : State M σ) (msg : List Char) (calls : List Call) :
    List Char × State M σ × List Call :=
  (msg, { s with last_model_response := msg }, calls)

/-- `query(prompt)`: returned text, new state, engine calls made. The result
is `none` where the code dereferences a null `prompt`; a failing `malloc` is
not modelled. -/
def query {M V σ F : Type} (E : Engine M V σ F) (s : State M σ)
    (prompt : Option (List Char)) : Option (List Char × State M σ × List Call) :=
  match s.context with
  | none => some (diagnostic s "LLM not initialized.".toList [])
  | some ctx =>
    match prompt with
    | none => none
    | some prompt =>
      match s.model with
      | none => some (diagnostic s "Vocab not available.".toList [])
      | some model =>
        match E.llama_model_get_vocab model with
        | none => some (diagnostic s "Vocab not available.".toList [.llama_model_get_vocab])
        | some vocab =>
          let n_vocab := E.llama_vocab_n_tokens vocab
          let text := full_prompt s.knowledge_base prompt
          let tk := tokenizeResult E vocab s.knowledge_base prompt
          let c0 : List Call :=
            [.llama_model_get_vocab, .llama_vocab_n_tokens,
             .llama_tokenize text (text.length + 50)]
          if tk.1 ≤ 0 then some (diagnostic s "Tokenization failed.".toList c0)
          else
            let tokens := promptTokens E vocab s.knowledge_base prompt
            if tokens.length > 512 then
              some (diagnostic s "Prompt too long for model context window.".toList c0)
            else
              let r := E.llama_decode ctx (promptBatch tokens)
              let c1 := c0 ++ [.llama_batch_init tokens.length,
                .llama_decode (promptBatch tokens), .llama_batch_free]
              if r.1 ≠ 0 then
                some (diagnostic { s with inference_context := some (some r.2) }
                  "Failed to evaluate prompt.".toList c1)
              else
                let g := genLoop E vocab n_vocab 32
                  { last_model_response := [], n_past := tokens.length, ctx := r.2,
                    calls := c1 ++ [.llama_sampler_init_greedy] }
                some (g.last_model_response,
                  { s with inference_context := some (some g.ctx),
                           last_model_response := g.last_model_response },
                  g.calls ++ [.llama_sampler_free])

/-- The batches handed to `llama_decode`, in call order. -/
def decodes (calls : List Call) : List Batch :=
  calls.filterMap (fun c => match c with
    | .llama_decode b => some b
    | _ => none)

/-! ## Simultaneous callers

Every exported function but `free_response` opens with
`std::lock_guard<std::mutex> lock(api_mutex);`, held until the function
returns. A thread executes one call: it waits for `api_mutex`, runs the atomic
steps of the body in program order on the file-scope variables (type `G`) and
its own locals (type `L`), then releases the lock. A schedule is the list of
the threads that take a step, in order; a thread that finds the lock held
makes no progress. -/

/-- The exported functions of `integrated_llm.h`. -/
inductive ApiFunction where
  | init
  | add_knowledge
  | load_knowledge_file
  | query
  | free_response
deriving DecidableEq, Repr

/-- Whether the function's first statement is
`std::lock_guard<std::mutex> lock(api_mutex);`. The body of `free_response` is
`free(ptr);` alone. -/
def takesLock : ApiFunction → Bool
  | .init => true
  | .add_knowledge => true
  | .load_knowledge_file => true
  | .query => true
  | .free_response => false

/-- Where a thread that executes one call of a locking function stands: before
`lock`, inside the body with the steps `rest` still to run, or returned. -/
inductive Phase (G L : Type) where
  | waiting : Phase G L
  | inside (rest : List (G × L → G × L)) : Phase G L
  | finished : Phase G L

/-- The thread is inside the critical section. -/
def Phase.isInside {G L : Type} : Phase G L → Bool
  | .inside _ => true
  | _ => false

/-- The call has returned. -/
def Phase.isFinished {G L : Type} : Phase G L → Bool
  | .finished => true
  | _ => false

/-- The call has not acquired the lock yet. -/
def Phase.isWaiting {G L : Type} : Phase G L → Bool
  | .waiting => true
  | _ => false

/-- A thread: its phase and its local variables. -/
structure Thread (G L : Type) where
  phase : Phase G L
  loc : L

/-- The process: file-scope variables, holder of `api_mutex`, threads. -/
structure Config (ι G L : Type) where
  shared : G
  api_mutex : Option ι
  threads : ι → Thread G L

/-- Thread `t` takes one step: it acquires the free lock, runs the next atomic
step of its body, or releases the lock and returns. -/
def step {ι G L : Type} [DecidableEq ι] (body : ι → List (G × L → G × L))
    (cfg : Config ι G L) (t : ι) : Config ι G L :=
  match (cfg.threads t).phase with
  | .waiting =>
    match cfg.api_mutex with
    | none =>
      { cfg with
        api_mutex := some t,
        threads := Function.update cfg.threads t
          { phase := .inside (body t), loc := (cfg.threads t).loc } }
    | some _ => cfg
  | .inside (m :: ms) =>
    { shared := (m (cfg.shared, (cfg.threads t).loc)).1,
      api_mutex := cfg.api_mutex,
      threads := Function.update cfg.threads t
        { phase := .inside ms, loc := (m (cfg.shared, (cfg.threads t).loc)).2 } }
  | .inside [] =>
    { cfg with
      api_mutex := none,
      threads := Function.update cfg.threads t
        { phase := .finished, loc := (cfg.threads t).loc } }
  | .finished => cfg

/-- The process after the steps of a schedule. -/
def run {ι G L : Type} [DecidableEq ι] (body : ι → List (G × L → G × L))
    (cfg : Config ι G L) (sched : List ι) : Config ι G L :=
  sched.foldl (step body) cfg

/-- A body run from start to end without any other thread. -/
def atomic {G L : Type} (body : List (G × L → G × L)) (s : G × L) : G × L :=
  body.foldl (fun acc m => m acc) s

/-- The calls of `order` executed one after the other, each from start to end. -/
def serial {ι G L : Type} [DecidableEq ι] (body : ι → List (G × L → G × L))
    (order : List ι) (g : G) (locs : ι → L) : G × (ι → L) :=
  order.foldl
    (fun acc t => ((atomic (body t) (acc.1, acc.2 t)).1,
      Function.update acc.2 t (atomic (body t) (acc.1, acc.2 t)).2))
    (g, locs)

/-- All threads are about to make their call. -/
def initial {ι G L : Type} (g : G) (locs : ι → L) : Config ι G L :=
  { shared := g, api_mutex := none, threads := fun i => { phase := .waiting, loc := locs i } }

/-- Invariant of the process: `done` lists the returned calls in the order of
their return; the variables are those of the serial execution of `done`,
advanced by the steps the lock holder has run so far. -/
structure Inv {ι G L : Type} [DecidableEq ι] (body : ι → List (G × L → G × L))
    (g0 : G) (loc0 : ι → L) (cfg : Config ι G L) (done : List ι) : Prop where
  nodup : done.Nodup
  fin : ∀ i, (cfg.threads i).phase.isFinished = true ↔ i ∈ done
  locDone : ∀ i, i ∈ done → (cfg.threads i).loc = (serial body done g0 loc0).2 i
  locWait : ∀ i, (cfg.threads i).phase.isWaiting = true → (cfg.threads i).loc = loc0 i
  free : cfg.api_mutex = none →
    cfg.shared = (serial body done g0 loc0).1 ∧ ∀ i, (cfg.threads i).phase.isInside = false
  held : ∀ t, cfg.api_mutex = some t →
    (∃ rest, (cfg.threads t).phase = .inside rest
      ∧ atomic rest (cfg.shared, (cfg.threads t).loc)
          = atomic (body t) ((serial body done g0 loc0).1, loc0 t))
    ∧ ∀ i, i ≠ t → (cfg.threads i).phase.isInside = false

/-- A call of one of the locking functions. `lines` is the content of the
file a `load_knowledge_file` call reads. -/
inductive Request where
  | init (model_path : Option (List Char))
  | add_knowledge (doc : Option (List Char))
  | load_knowledge_file (filepath : Option Unit) (lines : List (List Char))
  | query (prompt : List Char)

/-- The exported function a request calls. -/
def Request.function : Request → ApiFunction
  | .init _ => .init
  | .add_knowledge _ => .add_knowledge
  | .load_knowledge_file _ _ => .load_knowledge_file
  | .query _ => .query

/-- What a call hands back: the return code of `init` (none when `init` was
left by an exception, and for the other functions), the text of `query`. -/
structure Outcome where
  status : Option Int
  response : Option (List Char)
deriving DecidableEq, Repr

/-- The locals of a thread: what the call returned so far, and the variables
`vocab`, `n_past` of `query`; `looping` holds while `query` is in its
generation loop. -/
structure Local (V : Type) where
  outcome : Outcome
  vocab : Option V
  n_past : Nat
  looping : Bool
  calls : List Call

/-- The locals of a thread about to make its call. -/
def freshLocal {V : Type} : Local V :=
  { outcome := { status := none, response := none }, vocab := none, n_past := 0,
    looping := false, calls := [] }

/-- A `return result;` of `query`, `result` being a copy of the diagnostic. -/
def returnText {M V σ : Type} (l : Local V) (d : List Char × State M σ × List Call) :
    State M σ × Local V :=
  (d.2.1, { l with outcome := { l.outcome with response := some d.1 }, calls := d.2.2 })

/-- Lines 132-243 of `query` as one step: every early return, or else the
prompt decode, `last_model_response.clear()` and the set-up of the loop. -/
def queryEnter {M V σ F : Type} (E : Engine M V σ F) (prompt : List Char)
    (x : State M σ × Local V) : State M σ × Local V :=
  match x.1.context with
  | none => returnText x.2 (diagnostic x.1 "LLM not initialized.".toList [])
  | some ctx =>
    match x.1.model with
    | none => returnText x.2 (diagnostic x.1 "Vocab not available.".toList [])
    | some model =>
      match E.llama_model_get_vocab model with
      | none =>
        returnText x.2 (diagnostic x.1 "Vocab not available.".toList [.llama_model_get_vocab])
      | some vocab =>
        let text := full_prompt x.1.knowledge_base prompt
        let tk := tokenizeResult E vocab x.1.knowledge_base prompt
        let c0 : List Call :=
          [.llama_model_get_vocab, .llama_vocab_n_tokens,
           .llama_tokenize text (text.length + 50)]
        if tk.1 ≤ 0 then returnText x.2 (diagnostic x.1 "Tokenization failed.".toList c0)
        else
          let tokens := promptTokens E vocab x.1.knowledge_base prompt
          if tokens.length > 512 then
            returnText x.2
              (diagnostic x.1 "Prompt too long for model context window.".toList c0)
          else
            let r := E.llama_decode ctx (promptBatch tokens)
            let c1 := c0 ++ [.llama_batch_init tokens.length,
              .llama_decode (promptBatch tokens), .llama_batch_free]
            if r.1 ≠ 0 then
              returnText x.2 (diagnostic { x.1 with inference_context := some (some r.2) }
                "Failed to evaluate prompt.".toList c1)
            else
              ({ x.1 with inference_context := some (some r.2), last_model_response := [] },
               { x.2 with vocab := some vocab, n_past := tokens.length, looping := true,
                          calls := c1 ++ [.llama_sampler_init_greedy] })

/-- One iteration of the generation loop on the file-scope variables
`inference_context` and `last_model_response`; nothing once the loop is left. -/
def queryIterate {M V σ F : Type} (E : Engine M V σ F) (x : State M σ × Local V) :
    State M σ × Local V :=
  match x.2.looping, x.2.vocab, x.1.context with
  | true, some vocab, some ctx =>
    let r := genStep E vocab (E.llama_vocab_n_tokens vocab)
      { last_model_response := x.1.last_model_response, n_past := x.2.n_past, ctx := ctx,
        calls := x.2.calls }
    ({ x.1 with inference_context := some (some r.2.ctx),
                last_model_response := r.2.last_model_response },
     { x.2 with n_past := r.2.n_past, looping := r.1, calls := r.2.calls })
  | _, _, _ => x

/-- Lines 348-354 of `query`: the sampler is freed and `last_model_response`
copied into the returned buffer; nothing after an early return. -/
def queryExit {M V σ : Type} (x : State M σ × Local V) : State M σ × Local V :=
  match x.2.outcome.response with
  | some _ => x
  | none =>
    (x.1, { x.2 with outcome := { x.2.outcome with response := some x.1.last_model_response },
                     looping := false, calls := x.2.calls ++ [.llama_sampler_free] })

/-- The atomic steps of the body of a call, in program order. -/
def apiBody {M V σ F : Type} (E : Engine M V σ F) :
    Request → List (State M σ × Local V → State M σ × Local V)
  | .init model_path =>
    [fun x => ((init E x.1 model_path).2.1,
      { x.2 with outcome := { x.2.outcome with status := (init E x.1 model_path).1 },
                 calls := (init E x.1 model_path).2.2 })]
  | .add_knowledge doc =>
    [fun x => ({ x.1 with knowledge_base := add_knowledge x.1.knowledge_base doc }, x.2)]
  | .load_knowledge_file filepath lines =>
    match filepath with
    | none => []
    | some _ =>
      lines.map (fun line x =>
        ({ x.1 with knowledge_base :=
            if line.isEmpty then x.1.knowledge_base else x.1.knowledge_base ++ [line] }, x.2))
  | .query prompt =>
    queryEnter E prompt :: (List.replicate 32 (queryIterate E) ++ [queryExit])

/-- A call executed alone on the state `s`: the new state and what the call
hands back. -/
def apiCall {M V σ F : Type} (E : Engine M V σ F) (r : Request) (s : State M σ) :
    State M σ × Outcome :=
  match r with
  | .init model_path => ((init E s model_path).2.1,
      { status := (init E s model_path).1, response := none })
  | .add_knowledge doc =>
    ({ s with knowledge_base := add_knowledge s.knowledge_base doc },
      { status := none, response := none })
  | .load_knowledge_file filepath lines =>
    ({ s with knowledge_base := load_knowledge_file s.knowledge_base filepath lines },
      { status := none, response := none })
  | .query prompt =>
    match query E s (some prompt) with
    | some res => (res.2.1, { status := none, response := some res.1 })
    | none => (s, { status := none, response := none })

/-- The calls of `order` executed one after the other with the sequential
functions `init`, `add_knowledge`, `load_knowledge_file` and `query`. -/
def serialApi {ι M V σ F : Type} [DecidableEq ι] (E : Engine M V σ F) (reqs : ι → Request)
    (order : List ι) (s : State M σ) : State M σ × (ι → Outcome) :=
  order.foldl
    (fun acc t => ((apiCall E (reqs t) acc.1).1,
      Function.update acc.2 t (apiCall E (reqs t) acc.1).2))
    (s, fun _ => { status := none, response := none })

/-- The process of simultaneous callers: thread `i` makes the call `reqs i`. -/
def apiProcess {ι M V σ F : Type} [DecidableEq ι] (E : Engine M V σ F) (reqs : ι → Request)
    (s : State M σ) (sched : List ι) : Config ι (State M σ) (Local V) :=
  run (fun i => apiBody E (reqs i)) (initial s (fun _ => freshLocal)) sched

/-- The variables of a thread inside the generation loop, `g` holding the
values of `last_model_response`, `n_past`, the context and the calls made. -/
def loopVars {M V σ : Type} (s : State M σ) (l : Local V) (g : GenState σ) (b : Bool) :
    State M σ × Local V :=
  ({ s with inference_context := some (some g.ctx),
            last_model_response := g.last_model_response },
   { l with n_past := g.n_past, looping := b, calls := g.calls })

/-! ## Auxiliary definitions for the proofs -/


/-- The words that successive `iss_q >> word` extractions yield. -/
def wordsOf : Nat → List Char → List (List Char)
  | 0, _ => []
  | fuel + 1, iss =>
    match extract iss with
    | none => []
    | some (word, rest) => word :: wordsOf fuel rest

/-! ### The run of the engine during one generation, following the specification

`c` is the state of the context when the loop is entered, `n` the value of
`n_past` there (the prompt length). -/

/-- The token selected in context state `c`: the id found in the slot the
sampler selected. -/
def selectedToken {M V σ F : Type} (E : Engine M V σ F) (n_vocab : Nat) (c : σ) : Int :=
  (((tokenData E n_vocab c).get? (E.llama_sampler_apply c (tokenData E n_vocab c)).toNat).map
    TokenData.id).getD 0

/-- The text fragment of a token, empty when the engine has no text for it. -/
def fragment {M V σ F : Type} (E : Engine M V σ F) (vocab : V) (t : Int) : List Char :=
  (E.llama_vocab_get_text vocab t).getD []

/-- The logits of state `c`, as a vector of length `n_vocab`. -/
def logitVector {M V σ F : Type} (E : Engine M V σ F) (n_vocab : Nat) (c : σ) : List F :=
  (List.range n_vocab).map (E.llama_get_logits c)

/-- The float sum of the logits of state `c`, added up from `0.0f` in index
order, is NaN. -/
def nanStop {M V σ F : Type} (E : Engine M V σ F) (n_vocab : Nat) (c : σ) : Bool :=
  E.isnan ((logitVector E n_vocab c).foldl E.fadd E.fzero)

/-- Some logit of state `c` is NaN: the condition `NaN logits` read on the
single values. -/
def nanLogit {M V σ F : Type} (E : Engine M V σ F) (n_vocab : Nat) (c : σ) : Bool :=
  (logitVector E n_vocab c).any E.isnan

/-- The sampler's selection in state `c` is out of range. -/
def rangeStop {M V σ F : Type} (E : Engine M V σ F) (n_vocab : Nat) (c : σ) : Bool :=
  decide (E.llama_sampler_apply c (tokenData E n_vocab c) < 0)
    || decide (E.llama_sampler_apply c (tokenData E n_vocab c) ≥ (n_vocab : Int))

/-- The token selected in state `c` is the end-of-sequence marker. -/
def eosStop {M V σ F : Type} (E : Engine M V σ F) (vocab : V) (n_vocab : Nat) (c : σ) : Bool :=
  decide (selectedToken E n_vocab c = E.llama_vocab_eos vocab)

/-- A stop condition met in state `c` before anything is appended. -/
def stopsBefore {M V σ F : Type} (E : Engine M V σ F) (vocab : V) (n_vocab : Nat) (c : σ) :
    Bool :=
  nanStop E n_vocab c || rangeStop E n_vocab c || eosStop E vocab n_vocab c

/-- The state of the context before step `k`, every earlier selected token
having been decoded at positions `n, n + 1, ...`. -/
def ctxAt {M V σ F : Type} (E : Engine M V σ F) (n_vocab : Nat) (c : σ) (n : Nat) : Nat → σ
  | 0 => c
  | k + 1 =>
    (E.llama_decode (ctxAt E n_vocab c n k)
      (nextBatch (selectedToken E n_vocab (ctxAt E n_vocab c n k)) (n + k))).2

/-- The token selected at step `k`. -/
def tokenAt {M V σ F : Type} (E : Engine M V σ F) (n_vocab : Nat) (c : σ) (n k : Nat) : Int :=
  selectedToken E n_vocab (ctxAt E n_vocab c n k)

/-- The incremental decode of step `k` fails. -/
def decodeFails {M V σ F : Type} (E : Engine M V σ F) (n_vocab : Nat) (c : σ) (n k : Nat) :
    Bool :=
  (E.llama_decode (ctxAt E n_vocab c n k) (nextBatch (tokenAt E n_vocab c n k) (n + k))).1 != 0

/-- No token is selected for appending at index `k`: a stop condition holds in
the state before step `k`, or the decode of step `k - 1` failed. -/
def stopAt {M V σ F : Type} (E : Engine M V σ F) (vocab : V) (n_vocab : Nat) (c : σ)
    (n : Nat) (k : Nat) : Bool :=
  stopsBefore E vocab n_vocab (ctxAt E n_vocab c n k)
    || (match k with
        | 0 => false
        | j + 1 => decodeFails E n_vocab c n j)

/-- The stop test at index `k` when `NaN logits` is read as `nanLogit`. -/
def stopAtNanLogit {M V σ F : Type} (E : Engine M V σ F) (vocab : V) (n_vocab : Nat) (c : σ)
    (n : Nat) (k : Nat) : Bool :=
  (nanLogit E n_vocab (ctxAt E n_vocab c n k) || rangeStop E n_vocab (ctxAt E n_vocab c n k)
      || eosStop E vocab n_vocab (ctxAt E n_vocab c n k))
    || (match k with
        | 0 => false
        | j + 1 => decodeFails E n_vocab c n j)

/-- The text that results when generation stops at the first index with
`stopAtNanLogit`, within the budget of 32 steps. -/
def textUntilNanLogit {M V σ F : Type} (E : Engine M V σ F) (vocab : V) (n_vocab : Nat)
    (c : σ) (n : Nat) : List Char :=
  ((List.range (((List.range 32).find? (stopAtNanLogit E vocab n_vocab c n)).getD 32)).map
    (fun k => fragment E vocab (tokenAt E n_vocab c n k))).flatten

/-- The index of the first stop condition, the step budget when there is none. -/
def firstStop {M V σ F : Type} (E : Engine M V σ F) (vocab : V) (n_vocab : Nat) (c : σ)
    (n : Nat) (budget : Nat) : Nat :=
  ((List.range budget).find? (stopAt E vocab n_vocab c n)).getD budget


/-- The calls `query` makes up to and including the prompt decode. -/
def promptCalls {M V σ F : Type} (E : Engine M V σ F) (vocab : V)
    (kb : List (List Char)) (prompt : List Char) : List Call :=
  [.llama_model_get_vocab, .llama_vocab_n_tokens,
   .llama_tokenize (full_prompt kb prompt) ((full_prompt kb prompt).length + 50)]
  ++ [.llama_batch_init (promptTokens E vocab kb prompt).length,
      .llama_decode (promptBatch (promptTokens E vocab kb prompt)), .llama_batch_free]

/-- The state of the context when the generation loop is entered: the result
of the prompt decode. -/
def promptCtx {M V σ F : Type} (E : Engine M V σ F) (vocab : V) (kb : List (List Char))
    (prompt : List Char) (c : σ) : σ :=
  (E.llama_decode c (promptBatch (promptTokens E vocab kb prompt))).2

/-- Retrieval finds an added document: with `D` added to the store `pre` and
the documents `later` added after it, the query returns `D` or a document of
`pre` whose score equals that of `D`. -/
def retrievesAdded (pre : List (List Char)) (D : List Char) (later : List (List Char))
    (q : List Char) : Prop :=
  retrieve_context (add_knowledge pre (some D) ++ later) q = D
    ∨ ∃ d ∈ pre, retrieve_context (add_knowledge pre (some D) ++ later) q = d
        ∧ scoreOf q d = scoreOf q D

/-- A small engine for concrete runs: one model file (the existence test
throws for a name of more than 255 characters), a vocabulary of four tokens
with end-of-sequence marker 3, one token per character of the text, a context
that counts the tokens decoded so far, whose logits favour token 1 (text `a`)
until six tokens were decoded and the marker afterwards, and the greedy
sampler. -/
def demoEngine : Engine Unit Unit Nat Flt where
  file_exists := fun path =>
    if path.length > 255 then none else some (path == "model.gguf".toList)
  llama_model_load_from_file := fun _ => some ()
  llama_init_from_model := fun _ => some 0
  llama_model_get_vocab := fun _ => some ()
  llama_vocab_n_tokens := fun _ => 4
  llama_tokenize := fun _ text _ => ((text.length : Int), text.map (fun ch => (ch.toNat : Int)))
  llama_decode := fun c b => (0, c + b.length)
  llama_get_logits := fun c t =>
    if (t = 1 ∧ c < 6) ∨ (t = 3 ∧ 6 ≤ c) then .finite 1 else .finite 0
  llama_sampler_apply := fun _ data => greedySelect data
  llama_vocab_eos := fun _ => 3
  llama_vocab_get_text := fun _ t => if t = 1 then some ['a'] else none
  fzero := .finite 0
  fadd := Flt.add
  isnan := Flt.isnan

/-- The demo engine with other logits: in every state token 1 (text `a`) has
logit `+inf`, token 2 has logit `-inf`, the others 0. No logit is NaN, the
greedy sampler selects token 1, every decode succeeds. -/
def infEngine : Engine Unit Unit Nat Flt :=
  { demoEngine with
    llama_get_logits := fun _ t =>
      if t = 1 then .posInf else if t = 2 then .negInf else .finite 0 }

/-- The state of a fresh process: nothing loaded, empty store. -/
def freshState : State Unit Nat :=
  { inference_context := none, loaded_model := none, last_model_response := [],
    knowledge_base := [] }

/-- The state after `init("model.gguf")` succeeded on the demo engine. -/
def readyState : State Unit Nat :=
  (init demoEngine freshState (some "model.gguf".toList)).2.1

/-- Two simultaneous callers of `query`, with prompts `hi` and `yo`. -/
def demoRequests : Bool → Request
  | false => .query "hi".toList
  | true => .query "yo".toList

/-- A schedule in which the two callers alternate until the first has
returned, and the second then runs alone. -/
def demoSchedule : List Bool :=
  (List.replicate 36 [false, true]).flatten ++ List.replicate 36 true

/-! ## Proofs: knowledge store -/

theorem findFrom_isSome (word : List Char) (l : List Char) (i : Nat) :
    (findFrom word l i).isSome = true ↔ word <:+: l := by
  induction l generalizing i with
  | nil =>
    simp only [findFrom, List.infix_nil]
    by_cases h : word = [] <;> simp [h]
  | cons c cs ih =>
    simp only [findFrom, List.infix_cons_iff]
    by_cases h : word.isPrefixOf (c :: cs) = true
    · simp only [h, if_true, Option.isSome_some, true_iff]
      exact Or.inl (List.isPrefixOf_iff_prefix.mp h)
    · simp only [h, if_false, Bool.false_eq_true]
      rw [ih]
      constructor
      · exact Or.inr
      · rintro (h1 | h1)
        · exact absurd (List.isPrefixOf_iff_prefix.mpr h1) h
        · exact h1

theorem find_isSome (doc word : List Char) :
    (find doc word).isSome = true ↔ word <:+: doc :=
  findFrom_isSome word doc 0

theorem scoreLoop_eq (doc : List Char) (fuel : Nat) (iss : List Char) (score : Nat) :
    scoreLoop doc fuel iss score
      = score + (wordsOf fuel iss).countP (fun w => decide (w <:+: doc)) := by
  induction fuel generalizing iss score with
  | zero => simp [scoreLoop, wordsOf]
  | succ n ih =>
    simp only [scoreLoop, wordsOf]
    cases h : extract iss with
    | none => simp
    | some p =>
      obtain ⟨w, rest⟩ := p
      simp only [ih, List.countP_cons]
      by_cases hw : w <:+: doc
      · have : (find doc w).isSome = true := (find_isSome doc w).mpr hw
        simp [this, hw]; omega
      · have : (find doc w).isSome = false := by
          cases hf : (find doc w).isSome
          · rfl
          · exact absurd ((find_isSome doc w).mp hf) hw
        simp [this, hw]

theorem specTokens_nil : specTokens [] = [] := by
  simp [specTokens, List.splitOnP_nil]

theorem specTokens_cons_space (c : Char) (cs : List Char) (h : isspace c = true) :
    specTokens (c :: cs) = specTokens cs := by
  simp [specTokens, List.splitOnP_cons, h]

theorem specTokens_dropWhile (l : List Char) :
    specTokens (l.dropWhile isspace) = specTokens l := by
  induction l with
  | nil => rfl
  | cons c cs ih =>
    by_cases h : isspace c = true
    · rw [List.dropWhile_cons_of_pos h, ih, specTokens_cons_space c cs h]
    · rw [List.dropWhile_cons_of_neg h]

theorem specTokens_word (c : Char) (cs : List Char) (h : isspace c = false) :
    specTokens (c :: cs)
      = (c :: cs).takeWhile (fun x => !isspace x)
        :: specTokens ((c :: cs).dropWhile (fun x => !isspace x)) := by
  have hsplit := List.takeWhile_append_dropWhile (fun x => !isspace x) (c :: cs)
  have hw : ∀ x ∈ (c :: cs).takeWhile (fun x => !isspace x), ¬ (isspace x = true) := by
    intro x hx
    have := List.mem_takeWhile_imp hx
    simpa using this
  have hne : (c :: cs).takeWhile (fun x => !isspace x) ≠ [] := by
    simp [List.takeWhile_cons, h]
  cases hd : (c :: cs).dropWhile (fun x => !isspace x) with
  | nil =>
    rw [hd, List.append_nil] at hsplit
    rw [specTokens_nil, hsplit]
    have := List.splitOnP_eq_single isspace (c :: cs) (by rw [hsplit] at hw; exact hw)
    simp [specTokens, this]
  | cons sep rest =>
    have hsep : isspace sep = true := by
      have := List.head_dropWhile_not (fun x => !isspace x) (c :: cs) (by rw [hd]; simp)
      simpa [hd] using this
    rw [hd] at hsplit
    rw [specTokens_cons_space sep rest hsep]
    conv_lhs => rw [← hsplit]
    have := List.splitOnP_first isspace _ hw sep hsep rest
    simp only [specTokens, this, List.filter_cons]
    have hne2 : ((c :: cs).takeWhile (fun x => !isspace x)).isEmpty = false := by
      cases hT : (c :: cs).takeWhile (fun x => !isspace x) with
      | nil => exact absurd hT hne
      | cons _ _ => rfl
    simp [hne2]

theorem wordsOf_eq (fuel : Nat) (iss : List Char) (h : iss.length < fuel) :
    wordsOf fuel iss = specTokens iss := by
  induction fuel generalizing iss with
  | zero => omega
  | succ n ih =>
    simp only [wordsOf, extract]
    rw [← specTokens_dropWhile iss]
    have hlen : (iss.dropWhile isspace).length ≤ iss.length :=
      (List.dropWhile_sublist isspace).length_le
    cases hd : iss.dropWhile isspace with
    | nil => simp [specTokens_nil]
    | cons c cs =>
      have hc : isspace c = false := by
        have := List.head_dropWhile_not isspace iss (by rw [hd]; simp)
        simpa [hd] using this
      rw [hd] at hlen
      simp only
      rw [specTokens_word c cs hc, ih]
      have h2 : ((c :: cs).dropWhile (fun x => !isspace x)).length < (c :: cs).length := by
        rw [List.dropWhile_cons_of_pos (by simp [hc])]
        exact Nat.lt_succ_of_le (List.dropWhile_sublist _).length_le
      omega

theorem scoreOf_eq (q doc : List Char) : scoreOf q doc = specScore q doc := by
  simp [scoreOf, specScore, scoreLoop_eq, wordsOf_eq]

theorem foldl_retrieveStep (q : List Char) (kb : List (List Char)) (m : Nat) (b : List Char) :
    kb.foldl (retrieveStep q) (m, b)
      = if m < specMax kb q then
          (specMax kb q, (kb.find? (fun d => specScore q d == specMax kb q)).getD [])
        else (m, b) := by
  induction kb generalizing m b with
  | nil => simp [specMax]
  | cons d ds ih =>
    have hM : specMax (d :: ds) q = max (specScore q d) (specMax ds q) := by
      simp [specMax]
    simp only [List.foldl_cons, retrieveStep, scoreOf_eq, hM, List.find?_cons]
    by_cases h1 : specScore q d > m
    · simp only [h1, if_true, ih]
      by_cases h2 : specScore q d < specMax ds q
      · have e1 : max (specScore q d) (specMax ds q) = specMax ds q := by omega
        have e2 : (specScore q d == specMax ds q) = false := by
          simp; omega
        have e3 : m < specMax ds q := by omega
        simp [h2, e1, e2, e3]
      · have e1 : max (specScore q d) (specMax ds q) = specScore q d := by omega
        simp [h2, e1, h1]
    · simp only [h1, if_false, ih]
      by_cases h2 : m < specMax ds q
      · have e1 : max (specScore q d) (specMax ds q) = specMax ds q := by omega
        have e2 : (specScore q d == specMax ds q) = false := by
          simp; omega
        simp [h2, e1, e2]
      · have e1 : ¬ m < max (specScore q d) (specMax ds q) := by omega
        simp [h2, e1]

theorem retrieve_context_eq (kb : List (List Char)) (q : List Char) :
    retrieve_context kb q = retrieve_reference kb q := by
  unfold retrieve_context retrieve_reference
  rw [foldl_retrieveStep]
  by_cases h : 0 < specMax kb q <;> simp [h]

/-! ## Proofs: generation loop -/

theorem find?_range_succ (p : Nat → Bool) (f : Nat) :
    (List.range (f + 1)).find? p
      = if p 0 then some 0 else ((List.range f).find? (fun j => p (j + 1))).map (· + 1) := by
  rw [List.range_succ_eq_map, List.find?_cons]
  by_cases h : p 0 = true
  · simp [h]
  · have h0 : p 0 = false := by simpa using h
    simp only [h0, Bool.false_eq_true, if_false]
    rw [List.find?_map]
    rfl

theorem ctxAt_shift {M V σ F : Type} (E : Engine M V σ F) (n_vocab : Nat) (c : σ) (n k : Nat) :
    ctxAt E n_vocab c n (k + 1)
      = ctxAt E n_vocab
          (E.llama_decode c (nextBatch (selectedToken E n_vocab c) n)).2 (n + 1) k := by
  induction k with
  | zero => simp [ctxAt]
  | succ j ih =>
    rw [ctxAt, ih]
    conv_rhs => rw [ctxAt]
    rw [show n + (j + 1) = n + 1 + j by omega]

theorem tokenAt_shift {M V σ F : Type} (E : Engine M V σ F) (n_vocab : Nat) (c : σ) (n k : Nat) :
    tokenAt E n_vocab c n (k + 1)
      = tokenAt E n_vocab
          (E.llama_decode c (nextBatch (selectedToken E n_vocab c) n)).2 (n + 1) k := by
  simp only [tokenAt, ctxAt_shift]

theorem decodeFails_shift {M V σ F : Type} (E : Engine M V σ F) (n_vocab : Nat) (c : σ)
    (n k : Nat) :
    decodeFails E n_vocab c n (k + 1)
      = decodeFails E n_vocab
          (E.llama_decode c (nextBatch (selectedToken E n_vocab c) n)).2 (n + 1) k := by
  simp only [decodeFails, tokenAt_shift, ctxAt_shift, show n + (k + 1) = n + 1 + k by omega]

theorem firstStop_zero {M V σ F : Type} (E : Engine M V σ F) (vocab : V) (n_vocab : Nat)
    (c : σ) (n : Nat) : firstStop E vocab n_vocab c n 0 = 0 := by
  simp [firstStop]

theorem firstStop_stop {M V σ F : Type} (E : Engine M V σ F) (vocab : V) (n_vocab : Nat)
    (c : σ) (n f : Nat) (h : stopsBefore E vocab n_vocab c = true) :
    firstStop E vocab n_vocab c n (f + 1) = 0 := by
  simp [firstStop, find?_range_succ, stopAt, ctxAt, h]

theorem firstStop_fail {M V σ F : Type} (E : Engine M V σ F) (vocab : V) (n_vocab : Nat)
    (c : σ) (n f : Nat) (h : stopsBefore E vocab n_vocab c = false)
    (hd : decodeFails E n_vocab c n 0 = true) :
    firstStop E vocab n_vocab c n (f + 1) = 1 := by
  have h0 : stopAt E vocab n_vocab c n 0 = false := by simp [stopAt, ctxAt, h]
  have h1 : stopAt E vocab n_vocab c n 1 = true := by simp [stopAt, hd]
  rw [firstStop, find?_range_succ]
  simp only [h0, Bool.false_eq_true, if_false]
  cases f with
  | zero => simp
  | succ f => simp [find?_range_succ, h1]

theorem firstStop_step {M V σ F : Type} (E : Engine M V σ F) (vocab : V) (n_vocab : Nat)
    (c : σ) (n f : Nat) (h : stopsBefore E vocab n_vocab c = false)
    (hd : decodeFails E n_vocab c n 0 = false) :
    firstStop E vocab n_vocab c n (f + 1)
      = firstStop E vocab n_vocab
          (E.llama_decode c (nextBatch (selectedToken E n_vocab c) n)).2 (n + 1) f + 1 := by
  have h0 : stopAt E vocab n_vocab c n 0 = false := by simp [stopAt, ctxAt, h]
  have hs : (fun j => stopAt E vocab n_vocab c n (j + 1))
      = stopAt E vocab n_vocab
          (E.llama_decode c (nextBatch (selectedToken E n_vocab c) n)).2 (n + 1) := by
    funext j
    cases j with
    | zero => simp [stopAt, ctxAt, hd]
    | succ i => simp only [stopAt, ctxAt_shift, decodeFails_shift]
  rw [firstStop, find?_range_succ]
  simp only [h0, Bool.false_eq_true, if_false, hs, firstStop]
  cases (List.range f).find? (stopAt E vocab n_vocab
      (E.llama_decode c (nextBatch (selectedToken E n_vocab c) n)).2 (n + 1)) <;> simp

theorem firstStop_le {M V σ F : Type} (E : Engine M V σ F) (vocab : V) (n_vocab : Nat)
    (c : σ) (n budget : Nat) : firstStop E vocab n_vocab c n budget ≤ budget := by
  unfold firstStop
  cases h : (List.range budget).find? (stopAt E vocab n_vocab c n) with
  | none => simp
  | some k =>
    have := List.mem_of_find?_eq_some h
    simp only [Option.getD_some]
    exact Nat.le_of_lt (List.mem_range.mp this)

theorem decodes_append (a b : List Call) : decodes (a ++ b) = decodes a ++ decodes b := by
  simp [decodes, List.filterMap_append]

theorem nanStop_eq {M V σ F : Type} (E : Engine M V σ F) (n_vocab : Nat) (c : σ) :
    nanStop E n_vocab c = E.isnan (sumLogits E n_vocab c) := by
  simp [nanStop, logitVector, sumLogits, List.foldl_map]

theorem foldl_fadd_nan {F : Type} (fadd : F → F → F) (isnan : F → Bool)
    (hprop : ∀ x y, isnan x = true ∨ isnan y = true → isnan (fadd x y) = true)
    (l : List F) (acc : F) (h : isnan acc = true ∨ l.any isnan = true) :
    isnan (l.foldl fadd acc) = true := by
  induction l generalizing acc with
  | nil =>
    rcases h with h | h
    · exact h
    · simp at h
  | cons x xs ih =>
    rw [List.foldl_cons]
    apply ih
    rcases h with h | h
    · exact Or.inl (hprop acc x (Or.inl h))
    · rw [List.any_cons, Bool.or_eq_true] at h
      rcases h with h | h
      · exact Or.inl (hprop acc x (Or.inr h))
      · exact Or.inr h

theorem nanLogit_nanStop {M V σ F : Type} (E : Engine M V σ F) (n_vocab : Nat) (c : σ)
    (hprop : ∀ x y, E.isnan x = true ∨ E.isnan y = true → E.isnan (E.fadd x y) = true)
    (h : nanLogit E n_vocab c = true) : nanStop E n_vocab c = true :=
  foldl_fadd_nan E.fadd E.isnan hprop _ _ (Or.inr h)

theorem genStep_stop {M V σ F : Type} (E : Engine M V σ F) (vocab : V) (n_vocab : Nat)
    (g : GenState σ) (h : stopsBefore E vocab n_vocab g.ctx = true) :
    ∃ cs, genStep E vocab n_vocab g = (false, { g with calls := g.calls ++ cs })
      ∧ decodes cs = [] := by
  unfold genStep
  by_cases h1 : E.isnan (sumLogits E n_vocab g.ctx) = true
  · exact ⟨[.llama_get_logits], by simp [h1], rfl⟩
  · by_cases h2 : E.llama_sampler_apply g.ctx (tokenData E n_vocab g.ctx) < 0
        ∨ E.llama_sampler_apply g.ctx (tokenData E n_vocab g.ctx) ≥ (n_vocab : Int)
    · exact ⟨[.llama_get_logits, .llama_sampler_apply], by simp only [h1, h2, if_true, if_false, Bool.false_eq_true], rfl⟩
    · by_cases h3 : (((tokenData E n_vocab g.ctx).get?
          (E.llama_sampler_apply g.ctx (tokenData E n_vocab g.ctx)).toNat).map
            TokenData.id).getD 0 = E.llama_vocab_eos vocab
      · exact ⟨[.llama_get_logits, .llama_sampler_apply, .llama_vocab_eos],
          by simp only [h1, h2, h3, if_true, if_false, Bool.false_eq_true], rfl⟩
      · exfalso
        simp only [stopsBefore, nanStop_eq, rangeStop, eosStop, selectedToken, Bool.or_eq_true,
          decide_eq_true_eq] at h
        rcases h with (h | h | h) | h
        · exact h1 h
        · exact h2 (Or.inl h)
        · exact h2 (Or.inr h)
        · exact h3 h

theorem genStep_go {M V σ F : Type} (E : Engine M V σ F) (vocab : V) (n_vocab : Nat)
    (g : GenState σ) (h : stopsBefore E vocab n_vocab g.ctx = false) :
    genStep E vocab n_vocab g
      = (!(decodeFails E n_vocab g.ctx g.n_past 0),
          { last_model_response :=
              g.last_model_response ++ fragment E vocab (selectedToken E n_vocab g.ctx),
            n_past := g.n_past + 1,
            ctx := (E.llama_decode g.ctx
              (nextBatch (selectedToken E n_vocab g.ctx) g.n_past)).2,
            calls := g.calls ++
              [.llama_get_logits, .llama_sampler_apply, .llama_vocab_eos,
               .llama_vocab_get_text (selectedToken E n_vocab g.ctx), .llama_batch_init 1,
               .llama_decode (nextBatch (selectedToken E n_vocab g.ctx) g.n_past),
               .llama_batch_free] }) := by
  simp only [stopsBefore, nanStop_eq, rangeStop, eosStop, Bool.or_eq_false_iff,
    decide_eq_false_iff_not] at h
  obtain ⟨⟨h1, h2a, h2b⟩, h3⟩ := h
  have h2 : ¬ (E.llama_sampler_apply g.ctx (tokenData E n_vocab g.ctx) < 0
      ∨ E.llama_sampler_apply g.ctx (tokenData E n_vocab g.ctx) ≥ (n_vocab : Int)) := by
    rintro (h | h)
    · exact h2a h
    · exact h2b h
  have hfrag : (match E.llama_vocab_get_text vocab (selectedToken E n_vocab g.ctx) with
      | some token_str => g.last_model_response ++ token_str
      | none => g.last_model_response)
      = g.last_model_response ++ fragment E vocab (selectedToken E n_vocab g.ctx) := by
    unfold fragment
    cases E.llama_vocab_get_text vocab (selectedToken E n_vocab g.ctx) <;> simp
  unfold genStep
  simp only [h1, Bool.false_eq_true, if_false, h2]
  have h3x : ¬ ((((tokenData E n_vocab g.ctx).get?
      (E.llama_sampler_apply g.ctx (tokenData E n_vocab g.ctx)).toNat).map
        TokenData.id).getD 0 = E.llama_vocab_eos vocab) := h3
  simp only [h3x, if_false]
  rw [show (((tokenData E n_vocab g.ctx).get?
      (E.llama_sampler_apply g.ctx (tokenData E n_vocab g.ctx)).toNat).map
        TokenData.id).getD 0 = selectedToken E n_vocab g.ctx from rfl, hfrag]
  simp [decodeFails, ctxAt, tokenAt, bne]

theorem genLoop_spec {M V σ F : Type} (E : Engine M V σ F) (vocab : V) (n_vocab : Nat)
    (f : Nat) (g : GenState σ) :
    (genLoop E vocab n_vocab f g).last_model_response
        = g.last_model_response
          ++ ((List.range (firstStop E vocab n_vocab g.ctx g.n_past f)).map
              (fun k => fragment E vocab (tokenAt E n_vocab g.ctx g.n_past k))).flatten
    ∧ decodes (genLoop E vocab n_vocab f g).calls
        = decodes g.calls
          ++ (List.range (firstStop E vocab n_vocab g.ctx g.n_past f)).map
              (fun k => nextBatch (tokenAt E n_vocab g.ctx g.n_past k) (g.n_past + k)) := by
  induction f generalizing g with
  | zero => simp [genLoop, firstStop_zero]
  | succ f ih =>
    cases h : stopsBefore E vocab n_vocab g.ctx with
    | true =>
      obtain ⟨cs, hstep, hcs⟩ := genStep_stop E vocab n_vocab g h
      simp [genLoop, hstep, firstStop_stop E vocab n_vocab g.ctx g.n_past f h, decodes_append,
        hcs]
    | false =>
      have hstep := genStep_go E vocab n_vocab g h
      cases hd : decodeFails E n_vocab g.ctx g.n_past 0 with
      | true =>
        rw [hd] at hstep
        simp [genLoop, hstep, firstStop_fail E vocab n_vocab g.ctx g.n_past f h hd,
          decodes_append, decodes, tokenAt, ctxAt, List.range_succ]
      | false =>
        rw [hd] at hstep
        simp only [genLoop, hstep, Bool.not_false,
          firstStop_step E vocab n_vocab g.ctx g.n_past f h hd]
        obtain ⟨ih1, ih2⟩ := ih
          { last_model_response :=
              g.last_model_response ++ fragment E vocab (selectedToken E n_vocab g.ctx),
            n_past := g.n_past + 1,
            ctx := (E.llama_decode g.ctx
              (nextBatch (selectedToken E n_vocab g.ctx) g.n_past)).2,
            calls := g.calls ++
              [.llama_get_logits, .llama_sampler_apply, .llama_vocab_eos,
               .llama_vocab_get_text (selectedToken E n_vocab g.ctx), .llama_batch_init 1,
               .llama_decode (nextBatch (selectedToken E n_vocab g.ctx) g.n_past),
               .llama_batch_free] }
        simp only at ih1 ih2
        rw [ih1, ih2, List.range_succ_eq_map]
        simp only [List.map_cons, List.map_map, List.flatten_cons, List.append_assoc,
          decodes_append]
        have e1 : (fun k => fragment E vocab (tokenAt E n_vocab g.ctx g.n_past k)) ∘ Nat.succ
            = fun k => fragment E vocab (tokenAt E n_vocab
                (E.llama_decode g.ctx (nextBatch (selectedToken E n_vocab g.ctx) g.n_past)).2
                (g.n_past + 1) k) := by
          funext k
          simp only [Function.comp, Nat.succ_eq_add_one, tokenAt_shift]
        have e2 : (fun k => nextBatch (tokenAt E n_vocab g.ctx g.n_past k) (g.n_past + k))
              ∘ Nat.succ
            = fun k => nextBatch (tokenAt E n_vocab
                (E.llama_decode g.ctx (nextBatch (selectedToken E n_vocab g.ctx) g.n_past)).2
                (g.n_past + 1) k) (g.n_past + 1 + k) := by
          funext k
          simp only [Function.comp, Nat.succ_eq_add_one, tokenAt_shift,
            show g.n_past + (k + 1) = g.n_past + 1 + k by omega]
        rw [e1, e2]
        simp [decodes, tokenAt, ctxAt]

/-! ## Proofs: retrieval of an added document -/

theorem specScore_le (q d : List Char) : specScore q d ≤ (specTokens q).length :=
  List.countP_le_length _

theorem specMax_le (kb : List (List Char)) (q : List Char) (T : Nat)
    (h : ∀ d ∈ kb, specScore q d ≤ T) : specMax kb q ≤ T := by
  induction kb with
  | nil => simp [specMax]
  | cons d ds ih =>
    have h1 := h d (List.mem_cons_self d ds)
    have h2 := ih (fun x hx => h x (List.mem_cons_of_mem d hx))
    simp only [specMax, List.map_cons, List.foldr_cons] at h2 ⊢
    omega

theorem le_specMax (kb : List (List Char)) (q d : List Char) (h : d ∈ kb) :
    specScore q d ≤ specMax kb q := by
  induction kb with
  | nil => simp at h
  | cons x xs ih =>
    simp only [specMax, List.map_cons, List.foldr_cons] at ih ⊢
    rcases List.mem_cons.mp h with h | h
    · subst h; omega
    · have := ih h; omega

/-! ## Proofs: the paths of `query` -/

theorem resize_length (l : List Int) (n : Nat) : (resize l n).length = n := by
  simp only [resize, List.length_append, List.length_take, List.length_replicate]
  omega

theorem promptTokens_length {M V σ F : Type} (E : Engine M V σ F) (vocab : V)
    (kb : List (List Char)) (prompt : List Char) :
    (promptTokens E vocab kb prompt).length = (tokenizeResult E vocab kb prompt).1.toNat :=
  resize_length _ _

theorem decodes_promptCalls {M V σ F : Type} (E : Engine M V σ F) (vocab : V)
    (kb : List (List Char)) (prompt : List Char) :
    decodes (promptCalls E vocab kb prompt) = [promptBatch (promptTokens E vocab kb prompt)] := by
  simp [promptCalls, decodes]

theorem query_too_long {M V σ F : Type} (E : Engine M V σ F) (s : State M σ)
    (prompt : List Char) (c : σ) (m : M) (v : V)
    (hc : s.context = some c) (hm : s.model = some m) (hv : E.llama_model_get_vocab m = some v)
    (hlong : 512 < (tokenizeResult E v s.knowledge_base prompt).1) :
    query E s (some prompt)
      = some (diagnostic s "Prompt too long for model context window.".toList
          [.llama_model_get_vocab, .llama_vocab_n_tokens,
           .llama_tokenize (full_prompt s.knowledge_base prompt)
             ((full_prompt s.knowledge_base prompt).length + 50)]) := by
  have h1 : ¬ (tokenizeResult E v s.knowledge_base prompt).1 ≤ 0 := by omega
  have h2 : (promptTokens E v s.knowledge_base prompt).length > 512 := by
    rw [promptTokens_length]; omega
  simp only [query, hc, hm, hv, h1, h2, if_true, if_false]

theorem query_prompt_failed {M V σ F : Type} (E : Engine M V σ F) (s : State M σ)
    (prompt : List Char) (c : σ) (m : M) (v : V)
    (hc : s.context = some c) (hm : s.model = some m) (hv : E.llama_model_get_vocab m = some v)
    (hpos : 0 < (tokenizeResult E v s.knowledge_base prompt).1)
    (hlen : (tokenizeResult E v s.knowledge_base prompt).1 ≤ 512)
    (hdec : (E.llama_decode c (promptBatch (promptTokens E v s.knowledge_base prompt))).1 ≠ 0) :
    query E s (some prompt)
      = some (diagnostic
          { s with inference_context := some (some
              (E.llama_decode c (promptBatch (promptTokens E v s.knowledge_base prompt))).2) }
          "Failed to evaluate prompt.".toList (promptCalls E v s.knowledge_base prompt)) := by
  have h1 : ¬ (tokenizeResult E v s.knowledge_base prompt).1 ≤ 0 := by omega
  have h2 : ¬ (promptTokens E v s.knowledge_base prompt).length > 512 := by
    rw [promptTokens_length]; omega
  simp only [query, hc, hm, hv, h1, h2, if_false, hdec, promptCalls]
  simp
  intro h
  exact absurd h hdec

theorem query_generates {M V σ F : Type} (E : Engine M V σ F) (s : State M σ)
    (prompt : List Char) (c : σ) (m : M) (v : V)
    (hc : s.context = some c) (hm : s.model = some m) (hv : E.llama_model_get_vocab m = some v)
    (hpos : 0 < (tokenizeResult E v s.knowledge_base prompt).1)
    (hlen : (tokenizeResult E v s.knowledge_base prompt).1 ≤ 512)
    (hdec : (E.llama_decode c (promptBatch (promptTokens E v s.knowledge_base prompt))).1 = 0) :
    query E s (some prompt)
      = some ((genLoop E v (E.llama_vocab_n_tokens v) 32
            { last_model_response := [],
              n_past := (promptTokens E v s.knowledge_base prompt).length,
              ctx := (E.llama_decode c
                (promptBatch (promptTokens E v s.knowledge_base prompt))).2,
              calls := promptCalls E v s.knowledge_base prompt
                ++ [.llama_sampler_init_greedy] }).last_model_response,
          { s with
            inference_context := some (some (genLoop E v (E.llama_vocab_n_tokens v) 32
              { last_model_response := [],
                n_past := (promptTokens E v s.knowledge_base prompt).length,
                ctx := (E.llama_decode c
                  (promptBatch (promptTokens E v s.knowledge_base prompt))).2,
                calls := promptCalls E v s.knowledge_base prompt
                  ++ [.llama_sampler_init_greedy] }).ctx),
            last_model_response := (genLoop E v (E.llama_vocab_n_tokens v) 32
              { last_model_response := [],
                n_past := (promptTokens E v s.knowledge_base prompt).length,
                ctx := (E.llama_decode c
                  (promptBatch (promptTokens E v s.knowledge_base prompt))).2,
                calls := promptCalls E v s.knowledge_base prompt
                  ++ [.llama_sampler_init_greedy] }).last_model_response },
          (genLoop E v (E.llama_vocab_n_tokens v) 32
            { last_model_response := [],
              n_past := (promptTokens E v s.knowledge_base prompt).length,
              ctx := (E.llama_decode c
                (promptBatch (promptTokens E v s.knowledge_base prompt))).2,
              calls := promptCalls E v s.knowledge_base prompt
                ++ [.llama_sampler_init_greedy] }).calls ++ [.llama_sampler_free]) := by
  have h1 : ¬ (tokenizeResult E v s.knowledge_base prompt).1 ≤ 0 := by omega
  have h2 : ¬ (promptTokens E v s.knowledge_base prompt).length > 512 := by
    rw [promptTokens_length]; omega
  simp only [query, hc, hm, hv, h1, h2, if_false, hdec, promptCalls]
  simp

theorem find_first_spec (p : Nat → Bool) (b : Nat) :
    (∀ k, k < ((List.range b).find? p).getD b → p k = false)
      ∧ (((List.range b).find? p).getD b < b → p (((List.range b).find? p).getD b) = true) := by
  induction b with
  | zero => simp
  | succ b ih =>
    rw [List.range_succ, List.find?_append]
    cases hf : (List.range b).find? p with
    | some k =>
      rw [hf] at ih
      have hk : k < b := List.mem_range.mp (List.mem_of_find?_eq_some hf)
      simp only [Option.getD_some] at ih
      have e : ((some k).or (List.find? p [b])).getD (b + 1) = k := by simp
      rw [e]
      exact ⟨ih.1, fun _ => ih.2 hk⟩
    | none =>
      rw [hf] at ih
      simp only [Option.getD_none] at ih
      cases hb : p b with
      | true =>
        have e : ((none : Option Nat).or (List.find? p [b])).getD (b + 1) = b := by
          simp [List.find?_cons, hb]
        rw [e]
        exact ⟨ih.1, fun _ => hb⟩
      | false =>
        have e : ((none : Option Nat).or (List.find? p [b])).getD (b + 1) = b + 1 := by
          simp [List.find?_cons, hb]
        rw [e]
        refine ⟨fun k hk => ?_, fun h => absurd h (Nat.lt_irrefl _)⟩
        rcases Nat.lt_succ_iff_lt_or_eq.mp hk with h | h
        · exact ih.1 k h
        · rw [h]; exact hb

theorem firstStop_eq {M V σ F : Type} (E : Engine M V σ F) (vocab : V) (n_vocab : Nat)
    (c : σ) (n budget K : Nat) (hK : K ≤ budget)
    (h1 : ∀ k, k < K → stopAt E vocab n_vocab c n k = false)
    (h2 : K < budget → stopAt E vocab n_vocab c n K = true) :
    firstStop E vocab n_vocab c n budget = K := by
  obtain ⟨s1, s2⟩ := find_first_spec (stopAt E vocab n_vocab c n) budget
  have hle := firstStop_le E vocab n_vocab c n budget
  unfold firstStop at hle ⊢
  rcases Nat.lt_trichotomy
    (((List.range budget).find? (stopAt E vocab n_vocab c n)).getD budget) K with h | h | h
  · have a := h1 _ h
    have b := s2 (by omega)
    rw [a] at b; cases b
  · exact h
  · have a := s1 K h
    have b := h2 (by omega)
    rw [a] at b; cases b

theorem flatten_map_singleton {α β : Type} (f : α → β) (l : List α) :
    (l.map (fun x => [f x])).flatten = l.map f := by
  induction l with
  | nil => rfl
  | cons a as ih => simp [ih]

theorem promptBatch_length (tokens : List Int) : (promptBatch tokens).length = tokens.length := by
  simp [promptBatch]

theorem promptBatch_pos (tokens : List Int) :
    (promptBatch tokens).map (fun e => e.pos) = List.range tokens.length := by
  simp only [promptBatch, List.map_map]
  rw [← List.enum_map_fst tokens]
  rfl

theorem promptBatch_get (tokens : List Int) (i : Nat) (t : Int) (h : tokens[i]? = some t) :
    (promptBatch tokens)[i]? = some { token := t, pos := i, n_seq_id := 1, seq_id := [0] } := by
  simp [promptBatch, List.getElem?_enum, h]

theorem query_decodes {M V σ F : Type} (E : Engine M V σ F) (s : State M σ)
    (prompt : List Char) (c : σ) (m : M) (v : V)
    (hc : s.context = some c) (hm : s.model = some m) (hv : E.llama_model_get_vocab m = some v)
    (hpos : 0 < (tokenizeResult E v s.knowledge_base prompt).1)
    (hlen : (tokenizeResult E v s.knowledge_base prompt).1 ≤ 512) :
    ∃ text st calls K, query E s (some prompt) = some (text, st, calls) ∧ K ≤ 32
      ∧ decodes calls
          = promptBatch (promptTokens E v s.knowledge_base prompt)
            :: (List.range K).map (fun k =>
                nextBatch
                  (tokenAt E (E.llama_vocab_n_tokens v)
                    (E.llama_decode c
                      (promptBatch (promptTokens E v s.knowledge_base prompt))).2
                    (promptTokens E v s.knowledge_base prompt).length k)
                  ((promptTokens E v s.knowledge_base prompt).length + k)) := by
  by_cases hdec :
      (E.llama_decode c (promptBatch (promptTokens E v s.knowledge_base prompt))).1 = 0
  · refine ⟨_, _, _, firstStop E v (E.llama_vocab_n_tokens v)
        (E.llama_decode c (promptBatch (promptTokens E v s.knowledge_base prompt))).2
        (promptTokens E v s.knowledge_base prompt).length 32,
      query_generates E s prompt c m v hc hm hv hpos hlen hdec, firstStop_le _ _ _ _ _ _, ?_⟩
    rw [decodes_append, (genLoop_spec E v (E.llama_vocab_n_tokens v) 32 _).2, decodes_append,
      decodes_promptCalls]
    simp [decodes]
  · refine ⟨_, _, _, 0, query_prompt_failed E s prompt c m v hc hm hv hpos hlen hdec,
      Nat.zero_le _, ?_⟩
    simp [decodes_promptCalls]

theorem query_returns {M V σ F : Type} (E : Engine M V σ F) :
    ∀ (s : State M σ) (prompt : List Char),
      ∃ text st calls, query E s (some prompt) = some (text, st, calls)
        ∧ (decodes calls).length ≤ 33
        ∧ (decodes calls).tail.length ≤ 32
        ∧ ∀ b ∈ (decodes calls).tail, b.length = 1 := by
  intro s prompt
  cases hc : s.context with
  | none => exact ⟨_, _, _, by simp only [query, hc]; rfl, by simp [decodes]⟩
  | some c =>
    cases hm : s.model with
    | none => exact ⟨_, _, _, by simp only [query, hc, hm]; rfl, by simp [decodes]⟩
    | some m =>
      cases hv : E.llama_model_get_vocab m with
      | none =>
        exact ⟨_, _, _, by simp only [query, hc, hm, hv]; rfl, by simp [decodes]⟩
      | some v =>
        by_cases h1 : (tokenizeResult E v s.knowledge_base prompt).1 ≤ 0
        · exact ⟨_, _, _, by simp only [query, hc, hm, hv, h1, if_true]; rfl,
            by simp [decodes]⟩
        · by_cases h2 : 512 < (tokenizeResult E v s.knowledge_base prompt).1
          · exact ⟨_, _, _, query_too_long E s prompt c m v hc hm hv h2,
              by simp [decodes]⟩
          · obtain ⟨text, st, calls, K, hq, hK, hd⟩ :=
              query_decodes E s prompt c m v hc hm hv (by omega) (by omega)
            refine ⟨text, st, calls, hq, ?_, ?_, ?_⟩
            · simp [hd]; omega
            · simp [hd]; omega
            · intro b hb
              rw [hd] at hb
              obtain ⟨k, _, rfl⟩ := List.mem_map.mp hb
              rfl

/-! ## Proofs: simultaneous callers -/

theorem serial_append {ι G L : Type} [DecidableEq ι] (body : ι → List (G × L → G × L))
    (order : List ι) (t : ι) (g : G) (locs : ι → L) :
    serial body (order ++ [t]) g locs
      = ((atomic (body t) ((serial body order g locs).1, (serial body order g locs).2 t)).1,
          Function.update (serial body order g locs).2 t
            (atomic (body t) ((serial body order g locs).1, (serial body order g locs).2 t)).2) := by
  simp [serial, List.foldl_append]

theorem serial_untouched {ι G L : Type} [DecidableEq ι] (body : ι → List (G × L → G × L))
    (order : List ι) (g : G) (locs : ι → L) (i : ι) (h : i ∉ order) :
    (serial body order g locs).2 i = locs i := by
  induction order using List.reverseRecOn with
  | nil => rfl
  | append_singleton xs x ih =>
    rw [serial_append]
    have hx : i ≠ x := fun e => h (by simp [e])
    have hxs : i ∉ xs := fun e => h (by simp [e])
    simp [Function.update_noteq hx, ih hxs]

theorem inv_initial {ι G L : Type} [DecidableEq ι] (body : ι → List (G × L → G × L))
    (g0 : G) (loc0 : ι → L) : Inv body g0 loc0 (initial g0 loc0) [] where
  nodup := List.nodup_nil
  fin := by intro i; simp [initial, Phase.isFinished]
  locDone := by intro i h; simp at h
  locWait := by intro i _; rfl
  free := by intro _; exact ⟨rfl, fun i => rfl⟩
  held := by intro t h; simp [initial] at h

theorem inv_step {ι G L : Type} [DecidableEq ι] (body : ι → List (G × L → G × L))
    (g0 : G) (loc0 : ι → L) (cfg : Config ι G L) (done : List ι)
    (h : Inv body g0 loc0 cfg done) (t : ι) :
    ∃ done1, Inv body g0 loc0 (step body cfg t) done1 := by
  unfold step
  cases hp : (cfg.threads t).phase with
  | waiting =>
    cases hm : cfg.api_mutex with
    | some o => exact ⟨done, by simpa [hm] using h⟩
    | none =>
      obtain ⟨hsh, hin⟩ := h.free hm
      refine ⟨done, ?_⟩
      have hlt : (cfg.threads t).loc = loc0 t := h.locWait t (by simp [hp, Phase.isWaiting])
      have htd : t ∉ done := by
        intro hd
        have := (h.fin t).mpr hd
        simp [hp, Phase.isFinished] at this
      constructor
      · exact h.nodup
      · intro i
        by_cases hi : i = t
        · subst hi
          simp [Phase.isFinished, htd]
        · simp [Function.update_noteq hi, h.fin i]
      · intro i hi
        have hne : i ≠ t := fun e => htd (e ▸ hi)
        simp [Function.update_noteq hne, h.locDone i hi]
      · intro i hw
        by_cases hi : i = t
        · subst hi
          simp [Phase.isWaiting] at hw
        · simp only [Function.update_noteq hi] at hw ⊢
          exact h.locWait i hw
      · intro hcontra
        simp at hcontra
      · intro t1 ht1
        simp only [Option.some.injEq] at ht1
        subst ht1
        refine ⟨⟨body t, by simp, ?_⟩, ?_⟩
        · simp [hsh, hlt]
        · intro i hi
          simp [Function.update_noteq hi, hin i]
  | inside rest =>
    have hmt : cfg.api_mutex = some t := by
      cases hm : cfg.api_mutex with
      | none =>
        have := (h.free hm).2 t
        simp [hp, Phase.isInside] at this
      | some o =>
        by_cases ho : t = o
        · rw [ho]
        · have := (h.held o hm).2 t ho
          simp [hp, Phase.isInside] at this
    obtain ⟨⟨rest1, hr1, hat⟩, hothers⟩ := h.held t hmt
    rw [hp] at hr1
    cases hr1
    have htd : t ∉ done := by
      intro hd
      have := (h.fin t).mpr hd
      simp [hp, Phase.isFinished] at this
    cases rest with
    | nil =>
      refine ⟨done ++ [t], ?_⟩
      have hS := serial_append body done t g0 loc0
      have hun := serial_untouched body done g0 loc0 t htd
      simp only [atomic, List.foldl_nil] at hat
      have hat1 : atomic (body t) ((serial body done g0 loc0).1, loc0 t)
          = (cfg.shared, (cfg.threads t).loc) := hat.symm
      constructor
      · exact List.Nodup.append h.nodup (List.nodup_singleton t) (by simpa using htd)
      · intro i
        by_cases hi : i = t
        · subst hi
          simp [Phase.isFinished]
        · simp [Function.update_noteq hi, h.fin i, hi]
      · intro i hi
        rw [hS, hun, hat1]
        by_cases hit : i = t
        · subst hit
          simp
        · have hid : i ∈ done := by
            rcases List.mem_append.mp hi with h1 | h1
            · exact h1
            · exact absurd (List.mem_singleton.mp h1) hit
          simp [Function.update_noteq hit, h.locDone i hid]
      · intro i hw
        by_cases hi : i = t
        · subst hi
          simp [Phase.isWaiting] at hw
        · simp only [Function.update_noteq hi] at hw ⊢
          exact h.locWait i hw
      · intro _
        rw [hS, hun, hat1]
        refine ⟨rfl, ?_⟩
        intro i
        by_cases hi : i = t
        · subst hi
          simp [Phase.isInside]
        · simp [Function.update_noteq hi, hothers i hi]
      · intro t1 ht1
        simp at ht1
    | cons m ms =>
      refine ⟨done, ?_⟩
      constructor
      · exact h.nodup
      · intro i
        by_cases hi : i = t
        · subst hi
          simp [Phase.isFinished, htd]
        · simp [Function.update_noteq hi, h.fin i]
      · intro i hi
        have hne : i ≠ t := fun e => htd (e ▸ hi)
        simp [Function.update_noteq hne, h.locDone i hi]
      · intro i hw
        by_cases hi : i = t
        · subst hi
          simp [Phase.isWaiting] at hw
        · simp only [Function.update_noteq hi] at hw ⊢
          exact h.locWait i hw
      · intro hcontra
        simp [hmt] at hcontra
      · intro t1 ht1
        simp only [hmt, Option.some.injEq] at ht1
        subst ht1
        refine ⟨⟨ms, by simp, ?_⟩, ?_⟩
        · simpa [atomic] using hat
        · intro i hi
          simp [Function.update_noteq hi, hothers i hi]
  | finished => exact ⟨done, by simpa using h⟩

theorem inv_run {ι G L : Type} [DecidableEq ι] (body : ι → List (G × L → G × L))
    (g0 : G) (loc0 : ι → L) (sched : List ι) (cfg : Config ι G L) (done : List ι)
    (h : Inv body g0 loc0 cfg done) :
    ∃ done1, Inv body g0 loc0 (run body cfg sched) done1 := by
  induction sched generalizing cfg done with
  | nil => exact ⟨done, h⟩
  | cons t ts ih =>
    obtain ⟨d1, h1⟩ := inv_step body g0 loc0 cfg done h t
    exact ih _ d1 h1

theorem atomic_cons {G L : Type} (m : G × L → G × L) (ms : List (G × L → G × L))
    (x : G × L) : atomic (m :: ms) x = atomic ms (m x) := rfl

theorem atomic_append {G L : Type} (a b : List (G × L → G × L)) (x : G × L) :
    atomic (a ++ b) x = atomic b (atomic a x) := by
  simp [atomic, List.foldl_append]

theorem queryIterate_idle {M V σ F : Type} (E : Engine M V σ F) (x : State M σ × Local V)
    (h : x.2.looping = false) : queryIterate E x = x := by
  simp [queryIterate, h]

theorem atomic_idle {M V σ F : Type} (E : Engine M V σ F) (n : Nat)
    (x : State M σ × Local V) (h : x.2.looping = false) :
    atomic (List.replicate n (queryIterate E)) x = x := by
  induction n with
  | zero => rfl
  | succ n ih => rw [List.replicate_succ, atomic_cons, queryIterate_idle E x h, ih]

theorem queryIterate_loopVars {M V σ F : Type} (E : Engine M V σ F) (s : State M σ)
    (l : Local V) (g : GenState σ) (v : V) (hv : l.vocab = some v) :
    queryIterate E (loopVars s l g true)
      = loopVars s l (genStep E v (E.llama_vocab_n_tokens v) g).2
          (genStep E v (E.llama_vocab_n_tokens v) g).1 := by
  simp [queryIterate, loopVars, hv, State.context]

theorem atomic_loop {M V σ F : Type} (E : Engine M V σ F) (n : Nat) (s : State M σ)
    (l : Local V) (g : GenState σ) (v : V) (hv : l.vocab = some v) :
    ∃ b, atomic (List.replicate n (queryIterate E)) (loopVars s l g true)
      = loopVars s l (genLoop E v (E.llama_vocab_n_tokens v) n g) b := by
  induction n generalizing g with
  | zero => exact ⟨true, rfl⟩
  | succ n ih =>
    rw [List.replicate_succ, atomic_cons, queryIterate_loopVars E s l g v hv]
    cases hb : (genStep E v (E.llama_vocab_n_tokens v) g).1 with
    | true =>
      obtain ⟨b, hbb⟩ := ih (genStep E v (E.llama_vocab_n_tokens v) g).2
      refine ⟨b, ?_⟩
      rw [hbb]
      have : genStep E v (E.llama_vocab_n_tokens v) g
          = (true, (genStep E v (E.llama_vocab_n_tokens v) g).2) := by
        rw [← hb]
      simp only [genLoop]
      rw [this]
    | false =>
      refine ⟨false, ?_⟩
      rw [atomic_idle E n _ rfl]
      have : genStep E v (E.llama_vocab_n_tokens v) g
          = (false, (genStep E v (E.llama_vocab_n_tokens v) g).2) := by
        rw [← hb]
      simp only [genLoop]
      rw [this]

theorem atomic_returned {M V σ F : Type} (E : Engine M V σ F)
    (d : List Char × State M σ × List Call) :
    atomic (List.replicate 32 (queryIterate E) ++ [queryExit]) (returnText (freshLocal : Local V) d)
      = returnText freshLocal d := by
  rw [atomic_append, atomic_idle E 32 _ rfl]
  rfl

theorem query_returned {M V σ F : Type} (E : Engine M V σ F) (prompt : List Char)
    (s : State M σ) (d : List Char × State M σ × List Call)
    (h1 : queryEnter E prompt (s, (freshLocal : Local V)) = returnText freshLocal d)
    (h2 : query E s (some prompt) = some d) :
    ∃ l1 : Local V, atomic (apiBody E (.query prompt)) (s, freshLocal)
        = ((apiCall E (.query prompt) s).1, l1)
      ∧ l1.outcome = (apiCall E (.query prompt) s).2 := by
  refine ⟨(returnText (freshLocal : Local V) d).2, ?_, ?_⟩
  · simp only [apiBody, atomic_cons, h1, atomic_returned, apiCall, h2]
    rfl
  · simp only [apiCall, h2]
    rfl

theorem load_atomic {M V σ : Type} (lines : List (List Char)) (s : State M σ)
    (l : Local V) :
    atomic (lines.map (fun (line : List Char) (x : State M σ × Local V) =>
        ({ x.1 with knowledge_base :=
            if line.isEmpty then x.1.knowledge_base else x.1.knowledge_base ++ [line] }, x.2)))
      (s, l)
      = ({ s with knowledge_base :=
            (lines.foldl (fun acc line => if line.isEmpty then acc else acc ++ [line])
              s.knowledge_base) }, l) := by
  induction lines generalizing s with
  | nil => rfl
  | cons x xs ih =>
    rw [List.map_cons, atomic_cons, ih]
    rfl

theorem apiBody_atomic {M V σ F : Type} (E : Engine M V σ F) (r : Request) (s : State M σ) :
    ∃ l1 : Local V, atomic (apiBody E r) (s, freshLocal) = ((apiCall E r s).1, l1)
      ∧ l1.outcome = (apiCall E r s).2 := by
  cases r with
  | init model_path => exact ⟨_, rfl, rfl⟩
  | add_knowledge doc => exact ⟨_, rfl, rfl⟩
  | load_knowledge_file filepath lines =>
    cases filepath with
    | none => exact ⟨freshLocal, rfl, rfl⟩
    | some u =>
      refine ⟨freshLocal, ?_, rfl⟩
      simp only [apiBody, load_atomic, apiCall, load_knowledge_file]
  | query prompt =>
    cases hc : s.context with
    | none =>
      exact query_returned E prompt s (diagnostic s "LLM not initialized.".toList [])
        (by simp only [queryEnter, hc]) (by simp only [query, hc])
    | some c =>
      cases hm : s.model with
      | none =>
        exact query_returned E prompt s (diagnostic s "Vocab not available.".toList [])
          (by simp only [queryEnter, hc, hm]) (by simp only [query, hc, hm])
      | some m =>
        cases hv : E.llama_model_get_vocab m with
        | none =>
          exact query_returned E prompt s
            (diagnostic s "Vocab not available.".toList [.llama_model_get_vocab])
            (by simp only [queryEnter, hc, hm, hv]) (by simp only [query, hc, hm, hv])
        | some v =>
          by_cases h1 : (tokenizeResult E v s.knowledge_base prompt).1 ≤ 0
          · exact query_returned E prompt s
              (diagnostic s "Tokenization failed.".toList
                [.llama_model_get_vocab, .llama_vocab_n_tokens,
                 .llama_tokenize (full_prompt s.knowledge_base prompt)
                   ((full_prompt s.knowledge_base prompt).length + 50)])
              (by simp only [queryEnter, hc, hm, hv, h1, if_true])
              (by simp only [query, hc, hm, hv, h1, if_true])
          · by_cases h2 : (promptTokens E v s.knowledge_base prompt).length > 512
            · exact query_returned E prompt s
                (diagnostic s "Prompt too long for model context window.".toList
                  [.llama_model_get_vocab, .llama_vocab_n_tokens,
                   .llama_tokenize (full_prompt s.knowledge_base prompt)
                     ((full_prompt s.knowledge_base prompt).length + 50)])
                (by simp only [queryEnter, hc, hm, hv, h1, h2, if_true, if_false])
                (by simp only [query, hc, hm, hv, h1, h2, if_true, if_false])
            · by_cases h3 : (E.llama_decode c
                  (promptBatch (promptTokens E v s.knowledge_base prompt))).1 ≠ 0
              · exact query_returned E prompt s
                  (diagnostic
                    { s with inference_context := some (some (E.llama_decode c
                        (promptBatch (promptTokens E v s.knowledge_base prompt))).2) }
                    "Failed to evaluate prompt.".toList
                    ([.llama_model_get_vocab, .llama_vocab_n_tokens,
                      .llama_tokenize (full_prompt s.knowledge_base prompt)
                        ((full_prompt s.knowledge_base prompt).length + 50)]
                      ++ [.llama_batch_init (promptTokens E v s.knowledge_base prompt).length,
                          .llama_decode
                            (promptBatch (promptTokens E v s.knowledge_base prompt)),
                          .llama_batch_free]))
                  (by simp only [queryEnter, hc, hm, hv, h1, h2, if_false]; rw [if_pos h3])
                  (by simp only [query, hc, hm, hv, h1, h2, if_false]; rw [if_pos h3])
              · have hlen := promptTokens_length E v s.knowledge_base prompt
                have hq := query_generates E s prompt c m v hc hm hv (by omega) (by omega)
                  (not_not.mp h3)
                have he : queryEnter E prompt (s, (freshLocal : Local V))
                    = loopVars s { (freshLocal : Local V) with vocab := some v }
                        { last_model_response := [],
                          n_past := (promptTokens E v s.knowledge_base prompt).length,
                          ctx := (E.llama_decode c
                            (promptBatch (promptTokens E v s.knowledge_base prompt))).2,
                          calls := promptCalls E v s.knowledge_base prompt
                            ++ [.llama_sampler_init_greedy] } true := by
                  simp only [queryEnter, hc, hm, hv, h1, h2, h3, if_false]
                  rfl
                obtain ⟨b, hb⟩ := atomic_loop E 32 s
                  { (freshLocal : Local V) with vocab := some v }
                  { last_model_response := [],
                    n_past := (promptTokens E v s.knowledge_base prompt).length,
                    ctx := (E.llama_decode c
                      (promptBatch (promptTokens E v s.knowledge_base prompt))).2,
                    calls := promptCalls E v s.knowledge_base prompt
                      ++ [.llama_sampler_init_greedy] } v rfl
                refine ⟨(queryExit (loopVars s { (freshLocal : Local V) with vocab := some v }
                  (genLoop E v (E.llama_vocab_n_tokens v) 32
                    { last_model_response := [],
                      n_past := (promptTokens E v s.knowledge_base prompt).length,
                      ctx := (E.llama_decode c
                        (promptBatch (promptTokens E v s.knowledge_base prompt))).2,
                      calls := promptCalls E v s.knowledge_base prompt
                        ++ [.llama_sampler_init_greedy] }) b)).2, ?_, ?_⟩
                · simp only [apiBody, atomic_cons, atomic_append, he, hb, apiCall, hq]
                  rfl
                · simp only [apiCall, hq]
                  rfl

theorem serialApi_append {ι M V σ F : Type} [DecidableEq ι] (E : Engine M V σ F)
    (reqs : ι → Request) (order : List ι) (t : ι) (s : State M σ) :
    serialApi E reqs (order ++ [t]) s
      = ((apiCall E (reqs t) (serialApi E reqs order s).1).1,
          Function.update (serialApi E reqs order s).2 t
            (apiCall E (reqs t) (serialApi E reqs order s).1).2) := by
  simp [serialApi, List.foldl_append]

theorem serial_eq_serialApi {ι M V σ F : Type} [DecidableEq ι] (E : Engine M V σ F)
    (reqs : ι → Request) (order : List ι) (s : State M σ) (hnd : order.Nodup) :
    (serial (fun i => apiBody E (reqs i)) order s (fun _ => (freshLocal : Local V))).1
        = (serialApi E reqs order s).1
    ∧ ∀ i, i ∈ order →
        ((serial (fun i => apiBody E (reqs i)) order s
          (fun _ => (freshLocal : Local V))).2 i).outcome = (serialApi E reqs order s).2 i := by
  induction order using List.reverseRecOn with
  | nil => exact ⟨rfl, fun i hi => absurd hi (List.not_mem_nil i)⟩
  | append_singleton xs x ih =>
    have hx : x ∉ xs := by
      intro hmem
      have := List.nodup_append.mp hnd
      exact this.2.2 hmem (List.mem_singleton_self x)
    obtain ⟨ih1, ih2⟩ := ih (List.nodup_append.mp hnd).1
    rw [serial_append, serialApi_append]
    have hun := serial_untouched (fun i => apiBody E (reqs i)) xs s
      (fun _ => (freshLocal : Local V)) x hx
    simp only at hun
    rw [hun, ih1]
    obtain ⟨l1, hl1, hl2⟩ := apiBody_atomic E (reqs x) (serialApi E reqs xs s).1
    rw [hl1]
    refine ⟨rfl, ?_⟩
    intro i hi
    by_cases hix : i = x
    · subst hix
      simp [hl2]
    · have hixs : i ∈ xs := by
        rcases List.mem_append.mp hi with h1 | h1
        · exact h1
        · exact absurd (List.mem_singleton.mp h1) hix
      simp [Function.update_noteq hix, ih2 i hixs]

theorem serialApi_untouched {ι M V σ F : Type} [DecidableEq ι] (E : Engine M V σ F)
    (reqs : ι → Request) (order : List ι) (acc : State M σ × (ι → Outcome))
    (i : ι) (h : i ∉ order) :
    (order.foldl
      (fun acc t => ((apiCall E (reqs t) acc.1).1,
        Function.update acc.2 t (apiCall E (reqs t) acc.1).2)) acc).2 i = acc.2 i := by
  induction order generalizing acc with
  | nil => rfl
  | cons x xs ih =>
    have hx : i ≠ x := fun e => h (by simp [e])
    have hxs : i ∉ xs := fun e => h (by simp [e])
    rw [List.foldl_cons, ih _ hxs]
    simp [Function.update_noteq hx]

theorem serialApi_outcome {ι M V σ F : Type} [DecidableEq ι] (E : Engine M V σ F)
    (reqs : ι → Request) (pre post : List ι) (i : ι) (s : State M σ)
    (hnd : (pre ++ i :: post).Nodup) :
    (serialApi E reqs (pre ++ i :: post) s).2 i
      = (apiCall E (reqs i) (serialApi E reqs pre s).1).2 := by
  have hi : i ∉ post := by
    have h1 := (List.nodup_append.mp hnd).2.1
    exact (List.nodup_cons.mp h1).1
  unfold serialApi
  rw [List.foldl_append, List.foldl_cons, serialApi_untouched E reqs post _ i hi]
  simp

theorem inv_apiProcess {ι M V σ F : Type} [DecidableEq ι] (E : Engine M V σ F)
    (reqs : ι → Request) (s : State M σ) (sched : List ι) :
    ∃ done, Inv (fun i => apiBody E (reqs i)) s (fun _ => (freshLocal : Local V))
      (apiProcess E reqs s sched) done :=
  inv_run _ s _ sched _ [] (inv_initial _ s _)

theorem inside_holds_lock {ι G L : Type} [DecidableEq ι] (body : ι → List (G × L → G × L))
    (g0 : G) (loc0 : ι → L) (cfg : Config ι G L) (done : List ι)
    (h : Inv body g0 loc0 cfg done) (i : ι)
    (hi : (cfg.threads i).phase.isInside = true) : cfg.api_mutex = some i := by
  cases hm : cfg.api_mutex with
  | none =>
    have := (h.free hm).2 i
    rw [hi] at this
    cases this
  | some t =>
    by_cases hit : i = t
    · rw [hit]
    · have := (h.held t hm).2 i hit
      rw [hi] at this
      cases this

/-! ## Claims -/

/-- C1: for every knowledge store and every query, `retrieve_context` equals
the reference retrieval: each document is scored by the number of
whitespace-delimited query tokens (with repetition) occurring in it as a
substring; the first document attaining a positive maximum is returned, and
the empty string when the store is empty or every score is 0. On the store
`["cat dog", "dog cat"]` the query `"dog"` yields `"cat dog"`. -/
theorem retrieve_context_refines_reference :
    (∀ (kb : List (List Char)) (q : List Char),
        retrieve_context kb q = retrieve_reference kb q)
    ∧ retrieve_context ["cat dog".toList, "dog cat".toList] "dog".toList = "cat dog".toList :=
  ⟨retrieve_context_eq, by decide⟩

/-- C2, as stated, fails: with the single document `a` in the store and the
empty query (no token, so every token is a substring of `a`), retrieval
returns the empty string, which is neither `a` nor an earlier document. -/
theorem retrieve_added_counterexample :
    "a".toList ≠ [] ∧ (∀ w ∈ specTokens "".toList, w <:+: "a".toList)
      ∧ retrieve_context (add_knowledge [] (some "a".toList) ++ []) "".toList = []
      ∧ ¬ retrievesAdded [] "a".toList [] "".toList := by
  refine ⟨by decide, by decide, by decide, ?_⟩
  unfold retrievesAdded
  decide

/-- C2, amended: for every store `pre`, every document `D` added to it with
`add_knowledge`, whatever is added later, and every query with at least one
whitespace-delimited token, all of whose tokens are substrings of `D`,
`retrieve_context` returns `D` or a document inserted earlier than `D` whose
score equals that of `D`. -/
theorem retrieve_added (pre : List (List Char)) (D : List Char) (later : List (List Char))
    (q : List Char) (hq : specTokens q ≠ []) (hsub : ∀ w ∈ specTokens q, w <:+: D) :
    retrievesAdded pre D later q := by
  have hT : 0 < (specTokens q).length := List.length_pos.mpr hq
  have hD : specScore q D = (specTokens q).length := by
    unfold specScore
    rw [List.countP_eq_length]
    intro w hw
    simpa using hsub w hw
  have hmax : specMax (pre ++ [D] ++ later) q = (specTokens q).length := by
    apply Nat.le_antisymm
    · exact specMax_le _ _ _ (fun d _ => specScore_le q d)
    · rw [← hD]
      exact le_specMax _ _ _ (by simp)
  unfold retrievesAdded
  simp only [add_knowledge, scoreOf_eq, retrieve_context_eq, retrieve_reference, hmax, hT,
    if_true, hD]
  rw [List.append_assoc, List.find?_append]
  cases hf : pre.find? (fun d => specScore q d == (specTokens q).length) with
  | some d =>
    right
    refine ⟨d, List.mem_of_find?_eq_some hf, by simp, ?_⟩
    simpa using List.find?_some hf
  | none =>
    left
    simp [List.find?_cons, hD]

/-- C2 amended, on the store `fish`, `cat dog`, `dog cat` and the query `dog`. -/
theorem retrieve_added_witness :
    specTokens "dog".toList ≠ [] ∧ (∀ w ∈ specTokens "dog".toList, w <:+: "cat dog".toList)
      ∧ retrievesAdded ["fish".toList] "cat dog".toList ["dog cat".toList] "dog".toList :=
  ⟨by decide, by decide,
    retrieve_added ["fish".toList] "cat dog".toList ["dog cat".toList] "dog".toList
      (by decide) (by decide)⟩

set_option maxRecDepth 100000 in
/-- C3, as stated, fails: after a successful `init("model.gguf")`, calling
`init` with a path that names no existing file returns 10, not 0; and with a
name for which `std::filesystem::exists` throws, `init` returns no value. -/
theorem init_again_counterexample :
    (init demoEngine freshState (some "model.gguf".toList)).1 = some 0
      ∧ readyState.context.isSome = true ∧ readyState.model.isSome = true
      ∧ demoEngine.file_exists "missing.gguf".toList = some false
      ∧ (init demoEngine readyState (some "missing.gguf".toList)).1 = some 10
      ∧ (init demoEngine readyState (some "missing.gguf".toList)).1 ≠ some 0
      ∧ demoEngine.file_exists (List.replicate 256 'a') = none
      ∧ (init demoEngine readyState (some (List.replicate 256 'a'))).1 = none := by
  decide

/-- C3, amended: in every state in which a context is loaded, calling `init`
again returns 0 for every path that names an existing file, and 10 for a null
path or a path at which the existence test finds no file; when the existence
test itself fails (`std::filesystem::exists` throws), `init` returns no value.
In every case the state (model and context handles included) is unchanged and
no engine operation is invoked. -/
theorem init_again {M V σ F : Type} (E : Engine M V σ F) (s : State M σ)
    (model_path : Option (List Char)) (h : s.context.isSome = true) :
    init E s model_path
      = ((match model_path with
          | none => some 10
          | some path =>
            match E.file_exists path with
            | none => none
            | some true => some 0
            | some false => some 10), s, []) := by
  cases model_path with
  | none => rfl
  | some path =>
    simp only [init]
    cases hx : E.file_exists path with
    | none => rfl
    | some b => cases b <;> simp [h]

/-- C3 amended, on the state left by a successful `init` of the demo engine. -/
theorem init_again_witness :
    readyState.context.isSome = true
      ∧ init demoEngine readyState (some "model.gguf".toList)
          = ((match (some "model.gguf".toList : Option (List Char)) with
              | none => some 10
              | some path =>
                match demoEngine.file_exists path with
                | none => none
                | some true => some 0
                | some false => some 10), readyState, []) :=
  ⟨by decide, init_again demoEngine readyState (some "model.gguf".toList) (by decide)⟩

/-- C4: `add_knowledge` leaves the store unchanged for a null pointer and
appends every other string as the last document; the empty string is such a
string, so `add_knowledge("")` on the empty store yields a store of length 1,
where the claim says the store is unchanged. `load_knowledge_file` does skip
an empty line. -/
theorem add_knowledge_empty_document :
    (∀ kb, add_knowledge kb none = kb)
      ∧ (∀ kb d, add_knowledge kb (some d) = kb ++ [d])
      ∧ add_knowledge [] (some "".toList) = ["".toList]
      ∧ (add_knowledge [] (some "".toList)).length = 1
      ∧ load_knowledge_file [] (some ()) ["".toList] = [] := by
  refine ⟨fun _ => rfl, fun _ _ => rfl, by decide, by decide, by decide⟩

/-- C5: in every state without an inference context, `query` returns exactly
`LLM not initialized.` for every prompt (the null pointer included), makes no
call into the engine, and changes nothing in the state but the stored last
response: the knowledge store and both handles are as before. -/
theorem query_not_initialized {M V σ F : Type} (E : Engine M V σ F) (s : State M σ)
    (prompt : Option (List Char)) (h : s.context = none) :
    query E s prompt
      = some ("LLM not initialized.".toList,
          { s with last_model_response := "LLM not initialized.".toList }, [])
    ∧ ∀ r, query E s prompt = some r →
        r.1 = "LLM not initialized.".toList ∧ r.2.2 = []
          ∧ r.2.1.knowledge_base = s.knowledge_base
          ∧ r.2.1.inference_context = s.inference_context
          ∧ r.2.1.loaded_model = s.loaded_model := by
  have hq : query E s prompt
      = some ("LLM not initialized.".toList,
          { s with last_model_response := "LLM not initialized.".toList }, []) := by
    simp [query, h, diagnostic]
  refine ⟨hq, ?_⟩
  intro r hr
  rw [hq] at hr
  cases hr
  exact ⟨rfl, rfl, rfl, rfl, rfl⟩

/-- C5 on a fresh process whose store holds one document. -/
theorem query_not_initialized_witness :
    ({ freshState with knowledge_base := ["cat dog".toList] } : State Unit Nat).context = none
      ∧ (query demoEngine { freshState with knowledge_base := ["cat dog".toList] }
            (some "dog".toList)
          = some ("LLM not initialized.".toList,
              { ({ freshState with knowledge_base := ["cat dog".toList] } : State Unit Nat) with
                last_model_response := "LLM not initialized.".toList }, [])
        ∧ ∀ r, query demoEngine { freshState with knowledge_base := ["cat dog".toList] }
            (some "dog".toList) = some r →
          r.1 = "LLM not initialized.".toList ∧ r.2.2 = []
            ∧ r.2.1.knowledge_base
                = ({ freshState with knowledge_base := ["cat dog".toList] } :
                    State Unit Nat).knowledge_base
            ∧ r.2.1.inference_context
                = ({ freshState with knowledge_base := ["cat dog".toList] } :
                    State Unit Nat).inference_context
            ∧ r.2.1.loaded_model
                = ({ freshState with knowledge_base := ["cat dog".toList] } :
                    State Unit Nat).loaded_model) :=
  ⟨rfl, query_not_initialized demoEngine
    { freshState with knowledge_base := ["cat dog".toList] } (some "dog".toList) rfl⟩

/-- C6: when a context and a model are loaded and the vocabulary is available,
a prompt whose augmented text the tokenizer turns into more than 512 tokens
makes `query` return exactly `Prompt too long for model context window.`
with no call of `llama_decode`; with exactly 512 tokens `query` is not
stopped by this check: its first decode call submits the 512-token prompt
batch. -/
theorem prompt_too_long {M V σ F : Type} (E : Engine M V σ F) (s : State M σ)
    (prompt : List Char) (c : σ) (m : M) (v : V)
    (hc : s.context = some c) (hm : s.model = some m)
    (hv : E.llama_model_get_vocab m = some v) :
    (512 < (tokenizeResult E v s.knowledge_base prompt).1 →
      ∃ st calls, query E s (some prompt)
          = some ("Prompt too long for model context window.".toList, st, calls)
        ∧ decodes calls = [])
    ∧ ((tokenizeResult E v s.knowledge_base prompt).1 = 512 →
      ∃ text st calls, query E s (some prompt) = some (text, st, calls)
        ∧ (decodes calls).head? = some (promptBatch (promptTokens E v s.knowledge_base prompt))
        ∧ (promptBatch (promptTokens E v s.knowledge_base prompt)).length = 512) := by
  constructor
  · intro hlong
    exact ⟨_, _, query_too_long E s prompt c m v hc hm hv hlong, rfl⟩
  · intro h512
    obtain ⟨text, st, calls, K, hq, _, hd⟩ :=
      query_decodes E s prompt c m v hc hm hv (by omega) (by omega)
    refine ⟨text, st, calls, hq, by rw [hd]; rfl, ?_⟩
    rw [promptBatch_length, promptTokens_length, h512]
    rfl

set_option maxRecDepth 100000 in
/-- C6 on prompts of 513 and of 512 characters, one token per character. -/
theorem prompt_too_long_witness :
    readyState.context = some 0 ∧ readyState.model = some ()
      ∧ demoEngine.llama_model_get_vocab () = some ()
      ∧ 512 < (tokenizeResult demoEngine () readyState.knowledge_base
          (List.replicate 513 'x')).1
      ∧ (tokenizeResult demoEngine () readyState.knowledge_base (List.replicate 512 'x')).1 = 512
      ∧ (∃ st calls, query demoEngine readyState (some (List.replicate 513 'x'))
            = some ("Prompt too long for model context window.".toList, st, calls)
          ∧ decodes calls = [])
      ∧ (∃ text st calls, query demoEngine readyState (some (List.replicate 512 'x'))
            = some (text, st, calls)
          ∧ (decodes calls).head? = some (promptBatch
              (promptTokens demoEngine () readyState.knowledge_base (List.replicate 512 'x')))
          ∧ (promptBatch (promptTokens demoEngine () readyState.knowledge_base
              (List.replicate 512 'x'))).length = 512) :=
  ⟨rfl, rfl, rfl, by decide, by decide,
    (prompt_too_long demoEngine readyState (List.replicate 513 'x') 0 () () rfl rfl rfl).1
      (by decide),
    (prompt_too_long demoEngine readyState (List.replicate 512 'x') 0 () () rfl rfl rfl).2
      (by decide)⟩

/-- C7: the generation loop always ends, after at most 32 single-token
decodes and at most 32 appended token fragments, whatever the engine does;
every `query` with a prompt returns, and after its first decode (the prompt
batch) it makes at most 32 decode calls, each of one token. -/
theorem generation_bounded {M V σ F : Type} (E : Engine M V σ F) :
    (∀ (v : V) (n_vocab : Nat) (g : GenState σ),
      ∃ (incr : List Batch) (frags : List (List Char)),
        incr.length ≤ 32 ∧ frags.length ≤ 32
        ∧ (∀ b ∈ incr, b.length = 1)
        ∧ (∀ f ∈ frags, ∃ t, f = fragment E v t)
        ∧ decodes (genLoop E v n_vocab 32 g).calls = decodes g.calls ++ incr
        ∧ (genLoop E v n_vocab 32 g).last_model_response
            = g.last_model_response ++ frags.flatten)
    ∧ (∀ (s : State M σ) (prompt : List Char),
      ∃ text st calls, query E s (some prompt) = some (text, st, calls)
        ∧ (decodes calls).length ≤ 33
        ∧ (decodes calls).tail.length ≤ 32
        ∧ ∀ b ∈ (decodes calls).tail, b.length = 1) := by
  constructor
  · intro v n_vocab g
    obtain ⟨h1, h2⟩ := genLoop_spec E v n_vocab 32 g
    refine ⟨_, _, ?_, ?_, ?_, ?_, h2, h1⟩
    · simpa using firstStop_le E v n_vocab g.ctx g.n_past 32
    · simpa using firstStop_le E v n_vocab g.ctx g.n_past 32
    · intro b hb
      obtain ⟨k, _, rfl⟩ := List.mem_map.mp hb
      rfl
    · intro f hf
      obtain ⟨k, _, rfl⟩ := List.mem_map.mp hf
      exact ⟨_, rfl⟩
  · exact query_returns E

/-- C8, as stated, fails: `free_response` is one of the exported functions and
does not acquire `api_mutex`; its body is `free(ptr);` alone. -/
theorem free_response_takes_no_lock :
    takesLock ApiFunction.free_response = false
      ∧ ¬ (∀ f : ApiFunction, takesLock f = true) := by
  refine ⟨rfl, ?_⟩
  intro h
  exact absurd (h ApiFunction.free_response) (by decide)

/-- C8, amended: `init`, `add_knowledge`, `load_knowledge_file` and `query`
acquire the process-wide lock for their entire duration and release it on
return, `free_response` takes no lock. For simultaneous calls of the locking
functions, under every schedule: a thread inside a body holds the lock, no two
threads are inside a body together, and once all calls have returned the state
and every returned value are those of the calls executed one after the other
in some order; in particular each of N simultaneous `query` calls returns the
complete text that `query` returns on the state left by the calls before it. -/
theorem callers_serialized {ι M V σ F : Type} [DecidableEq ι] (E : Engine M V σ F)
    (reqs : ι → Request) (s : State M σ) (sched : List ι) :
    (takesLock .init = true ∧ takesLock .add_knowledge = true
      ∧ takesLock .load_knowledge_file = true ∧ takesLock .query = true
      ∧ takesLock .free_response = false)
    ∧ (∀ i, takesLock (reqs i).function = true)
    ∧ (∀ i, ((apiProcess E reqs s sched).threads i).phase.isInside = true →
        (apiProcess E reqs s sched).api_mutex = some i)
    ∧ (∀ i j, ((apiProcess E reqs s sched).threads i).phase.isInside = true →
        ((apiProcess E reqs s sched).threads j).phase.isInside = true → i = j)
    ∧ ((∀ i, ((apiProcess E reqs s sched).threads i).phase.isFinished = true) →
        ∃ order : List ι, order.Nodup ∧ (∀ i, i ∈ order)
          ∧ (apiProcess E reqs s sched).shared = (serialApi E reqs order s).1
          ∧ (∀ i, ((apiProcess E reqs s sched).threads i).loc.outcome
              = (serialApi E reqs order s).2 i)
          ∧ (∀ i prompt pre post, reqs i = .query prompt → order = pre ++ i :: post →
              ((apiProcess E reqs s sched).threads i).loc.outcome.response
                = (query E (serialApi E reqs pre s).1 (some prompt)).map (fun r => r.1))) := by
  obtain ⟨done, hinv⟩ := inv_apiProcess E reqs s sched
  refine ⟨⟨rfl, rfl, rfl, rfl, rfl⟩, ?_, ?_, ?_, ?_⟩
  · intro i
    cases reqs i <;> rfl
  · exact inside_holds_lock _ _ _ _ _ hinv
  · intro i j hi hj
    have h1 := inside_holds_lock _ _ _ _ _ hinv i hi
    have h2 := inside_holds_lock _ _ _ _ _ hinv j hj
    rw [h1] at h2
    exact Option.some.inj h2
  · intro hfin
    have hall : ∀ i, i ∈ done := fun i => (hinv.fin i).mp (hfin i)
    have hfree : (apiProcess E reqs s sched).api_mutex = none := by
      cases hm : (apiProcess E reqs s sched).api_mutex with
      | none => rfl
      | some t =>
        obtain ⟨⟨rest, hr, _⟩, _⟩ := hinv.held t hm
        have := hfin t
        rw [hr] at this
        cases this
    obtain ⟨e1, e2⟩ := serial_eq_serialApi E reqs done s hinv.nodup
    have hout : ∀ i, ((apiProcess E reqs s sched).threads i).loc.outcome
        = (serialApi E reqs done s).2 i := by
      intro i
      rw [hinv.locDone i (hall i)]
      exact e2 i (hall i)
    refine ⟨done, hinv.nodup, hall, ?_, hout, ?_⟩
    · rw [(hinv.free hfree).1]
      exact e1
    · intro i prompt pre post hreq hord
      rw [hout i]
      have hnd := hinv.nodup
      rw [hord] at hnd
      rw [hord, serialApi_outcome E reqs pre post i s hnd, hreq]
      simp only [apiCall]
      obtain ⟨text, st, calls, hq, _⟩ := query_returns E (serialApi E reqs pre s).1 prompt
      rw [hq]
      rfl

set_option maxRecDepth 100000 in
/-- C8 amended, on two simultaneous `query` calls that alternate: both return,
the first with `aaaa`, the second with the empty text that `query` yields on
the context the first call left. -/
theorem callers_serialized_witness :
    (∀ i, ((apiProcess demoEngine demoRequests readyState demoSchedule).threads i).phase.isFinished
        = true)
    ∧ ((apiProcess demoEngine demoRequests readyState demoSchedule).threads false).loc.outcome.response
        = some "aaaa".toList
    ∧ ((apiProcess demoEngine demoRequests readyState demoSchedule).threads true).loc.outcome.response
        = some "".toList
    ∧ ∃ order : List Bool, order.Nodup ∧ (∀ i, i ∈ order)
      ∧ (apiProcess demoEngine demoRequests readyState demoSchedule).shared
          = (serialApi demoEngine demoRequests order readyState).1
      ∧ (∀ i, ((apiProcess demoEngine demoRequests readyState demoSchedule).threads i).loc.outcome
          = (serialApi demoEngine demoRequests order readyState).2 i)
      ∧ (∀ i prompt pre post, demoRequests i = .query prompt → order = pre ++ i :: post →
          ((apiProcess demoEngine demoRequests readyState demoSchedule).threads i).loc.outcome.response
            = (query demoEngine (serialApi demoEngine demoRequests pre readyState).1
                (some prompt)).map (fun r => r.1)) :=
  ⟨by decide, by decide, by decide,
    (callers_serialized demoEngine demoRequests readyState demoSchedule).2.2.2.2 (by decide)⟩

/-- C9: in every query that reaches decoding with `n` prompt tokens
(`1 ≤ n ≤ 512`), the decode calls are the prompt batch followed by `K ≤ 32`
one-token batches; slot `i` of the prompt batch holds prompt token `i` at
position `i` with the single sequence id 0; the `k`-th incremental batch holds
the token selected at step `k` at position `n + k` with sequence id 0; the
positions submitted are `0, 1, ..., n + K - 1` in this order. -/
theorem decode_batches {M V σ F : Type} (E : Engine M V σ F) (s : State M σ)
    (prompt : List Char) (c : σ) (m : M) (v : V)
    (hc : s.context = some c) (hm : s.model = some m)
    (hv : E.llama_model_get_vocab m = some v)
    (hpos : 0 < (tokenizeResult E v s.knowledge_base prompt).1)
    (hlen : (tokenizeResult E v s.knowledge_base prompt).1 ≤ 512) :
    ∃ text st calls K, query E s (some prompt) = some (text, st, calls) ∧ K ≤ 32
      ∧ 1 ≤ (promptTokens E v s.knowledge_base prompt).length
      ∧ (promptTokens E v s.knowledge_base prompt).length ≤ 512
      ∧ decodes calls
          = promptBatch (promptTokens E v s.knowledge_base prompt)
            :: (List.range K).map (fun k =>
                [{ token := tokenAt E (E.llama_vocab_n_tokens v)
                      (promptCtx E v s.knowledge_base prompt c)
                      (promptTokens E v s.knowledge_base prompt).length k,
                   pos := (promptTokens E v s.knowledge_base prompt).length + k,
                   n_seq_id := 1, seq_id := [0] }])
      ∧ (promptBatch (promptTokens E v s.knowledge_base prompt)).length
          = (promptTokens E v s.knowledge_base prompt).length
      ∧ (∀ (i : Nat) (t : Int), (promptTokens E v s.knowledge_base prompt)[i]? = some t →
          (promptBatch (promptTokens E v s.knowledge_base prompt))[i]?
            = some ({ token := t, pos := i, n_seq_id := 1, seq_id := [0] } : BatchEntry))
      ∧ (decodes calls).flatten.map (fun e => e.pos)
          = List.range ((promptTokens E v s.knowledge_base prompt).length + K) := by
  obtain ⟨text, st, calls, K, hq, hK, hd⟩ :=
    query_decodes E s prompt c m v hc hm hv hpos hlen
  have hn := promptTokens_length E v s.knowledge_base prompt
  refine ⟨text, st, calls, K, hq, hK, by omega, by omega, hd, promptBatch_length _,
    promptBatch_get _, ?_⟩
  rw [hd, List.flatten_cons, List.map_append, promptBatch_pos, List.range_add]
  congr 1
  simp [List.map_flatten, nextBatch, Function.comp_def, flatten_map_singleton]

/-- C9 on the prompt `hi` and the demo engine. -/
theorem decode_batches_witness :
    readyState.context = some 0 ∧ readyState.model = some ()
      ∧ demoEngine.llama_model_get_vocab () = some ()
      ∧ 0 < (tokenizeResult demoEngine () readyState.knowledge_base "hi".toList).1
      ∧ (tokenizeResult demoEngine () readyState.knowledge_base "hi".toList).1 ≤ 512
      ∧ ∃ text st calls K, query demoEngine readyState (some "hi".toList) = some (text, st, calls)
        ∧ K ≤ 32
        ∧ 1 ≤ (promptTokens demoEngine () readyState.knowledge_base "hi".toList).length
        ∧ (promptTokens demoEngine () readyState.knowledge_base "hi".toList).length ≤ 512
        ∧ decodes calls
            = promptBatch (promptTokens demoEngine () readyState.knowledge_base "hi".toList)
              :: (List.range K).map (fun k =>
                  [{ token := tokenAt demoEngine (demoEngine.llama_vocab_n_tokens ())
                        (promptCtx demoEngine () readyState.knowledge_base "hi".toList 0)
                        (promptTokens demoEngine () readyState.knowledge_base "hi".toList).length k,
                     pos := (promptTokens demoEngine () readyState.knowledge_base
                        "hi".toList).length + k,
                     n_seq_id := 1, seq_id := [0] }])
        ∧ (promptBatch (promptTokens demoEngine () readyState.knowledge_base "hi".toList)).length
            = (promptTokens demoEngine () readyState.knowledge_base "hi".toList).length
        ∧ (∀ (i : Nat) (t : Int),
            (promptTokens demoEngine () readyState.knowledge_base "hi".toList)[i]? = some t →
            (promptBatch (promptTokens demoEngine () readyState.knowledge_base "hi".toList))[i]?
              = some ({ token := t, pos := i, n_seq_id := 1, seq_id := [0] } : BatchEntry))
        ∧ (decodes calls).flatten.map (fun e => e.pos)
            = List.range ((promptTokens demoEngine () readyState.knowledge_base
                "hi".toList).length + K) :=
  ⟨rfl, rfl, rfl, by decide, by decide,
    decode_batches demoEngine readyState "hi".toList 0 () () rfl rfl rfl (by decide) (by decide)⟩

set_option maxRecDepth 100000 in
/-- C10, as stated, fails: with logits `+inf` for token 1 (text `a`) and `-inf`
for token 2 no logit is NaN, the greedy sampler selects token 1 at every step,
the selection is in range and is not the end-of-sequence marker, and every
decode succeeds, so none of the stop conditions named in the claim holds before
the budget of 32 steps and the claimed text is 32 times `a`. The sum of the
logits is NaN, and `query` returns the empty text. -/
theorem response_nan_logits_counterexample :
    readyState.context = some 0 ∧ readyState.model = some ()
      ∧ infEngine.llama_model_get_vocab () = some ()
      ∧ 0 < (tokenizeResult infEngine () readyState.knowledge_base "hi".toList).1
      ∧ (tokenizeResult infEngine () readyState.knowledge_base "hi".toList).1 ≤ 512
      ∧ (infEngine.llama_decode 0
          (promptBatch (promptTokens infEngine () readyState.knowledge_base "hi".toList))).1 = 0
      ∧ logitVector infEngine 4 (promptCtx infEngine () readyState.knowledge_base "hi".toList 0)
          = [.finite 0, .posInf, .negInf, .finite 0]
      ∧ nanLogit infEngine 4 (promptCtx infEngine () readyState.knowledge_base "hi".toList 0)
          = false
      ∧ nanStop infEngine 4 (promptCtx infEngine () readyState.knowledge_base "hi".toList 0)
          = true
      ∧ selectedToken infEngine 4 (promptCtx infEngine () readyState.knowledge_base "hi".toList 0)
          = 1
      ∧ infEngine.llama_vocab_eos () = 3
      ∧ infEngine.llama_vocab_get_text () 1 = some ['a']
      ∧ textUntilNanLogit infEngine () 4
          (promptCtx infEngine () readyState.knowledge_base "hi".toList 0)
          (promptTokens infEngine () readyState.knowledge_base "hi".toList).length
          = List.replicate 32 'a'
      ∧ (query infEngine readyState (some "hi".toList)).map (fun r => r.1) = some []
      ∧ (query infEngine readyState (some "hi".toList)).map (fun r => r.1)
          ≠ some (textUntilNanLogit infEngine () 4
              (promptCtx infEngine () readyState.knowledge_base "hi".toList 0)
              (promptTokens infEngine () readyState.knowledge_base "hi".toList).length) := by
  decide

/-- C10, amended: in every query whose prompt decode succeeds, the returned
text is the concatenation, in selection order, of the text fragments of the
tokens selected at the steps before the first stop condition (the float sum
of the logits, added up from `0.0f` in index order, is NaN; out-of-range
selection; end-of-sequence marker; failed decode of the previous step; or the
budget of 32 steps), whatever the previous response was. None of these tokens
is the end-of-sequence marker, a token without text contributes the empty
fragment, a token whose decode fails is still included, and the text is empty
when a stop condition holds at the first step. Where float addition yields NaN
whenever an operand is NaN, a NaN logit makes the sum NaN. -/
theorem response_is_selected_fragments {M V σ F : Type} (E : Engine M V σ F) (s : State M σ)
    (prompt : List Char) (c : σ) (m : M) (v : V)
    (hc : s.context = some c) (hm : s.model = some m)
    (hv : E.llama_model_get_vocab m = some v)
    (hpos : 0 < (tokenizeResult E v s.knowledge_base prompt).1)
    (hlen : (tokenizeResult E v s.knowledge_base prompt).1 ≤ 512)
    (hdec : (E.llama_decode c (promptBatch (promptTokens E v s.knowledge_base prompt))).1 = 0) :
    let n_vocab := E.llama_vocab_n_tokens v
    let c1 := promptCtx E v s.knowledge_base prompt c
    let n := (promptTokens E v s.knowledge_base prompt).length
    let K := firstStop E v n_vocab c1 n 32
    (∀ old : List Char, ∃ st calls,
        query E { s with last_model_response := old } (some prompt)
          = some (((List.range K).map
              (fun k => fragment E v (tokenAt E n_vocab c1 n k))).flatten, st, calls))
    ∧ K ≤ 32
    ∧ (∀ k, k < K →
        nanStop E n_vocab (ctxAt E n_vocab c1 n k) = false
        ∧ rangeStop E n_vocab (ctxAt E n_vocab c1 n k) = false
        ∧ tokenAt E n_vocab c1 n k ≠ E.llama_vocab_eos v
        ∧ (k + 1 < K → decodeFails E n_vocab c1 n k = false))
    ∧ (K < 32 → stopAt E v n_vocab c1 n K = true)
    ∧ (stopsBefore E v n_vocab c1 = true → K = 0)
    ∧ (∀ t, E.llama_vocab_get_text v t = none → fragment E v t = [])
    ∧ (∀ k, k < 32 → (∀ j, j ≤ k → stopAt E v n_vocab c1 n j = false) →
        decodeFails E n_vocab c1 n k = true → K = k + 1)
    ∧ ((∀ x y, E.isnan x = true ∨ E.isnan y = true → E.isnan (E.fadd x y) = true) →
        ∀ k, nanLogit E n_vocab (ctxAt E n_vocab c1 n k) = true →
          nanStop E n_vocab (ctxAt E n_vocab c1 n k) = true) := by
  intro n_vocab c1 n K
  obtain ⟨s1, s2⟩ := find_first_spec (stopAt E v n_vocab c1 n) 32
  have hKle : K ≤ 32 := firstStop_le E v n_vocab c1 n 32
  refine ⟨?_, hKle, ?_, s2, ?_, ?_, ?_, fun hprop k hk => nanLogit_nanStop E _ _ hprop hk⟩
  · intro old
    have hq := query_generates E { s with last_model_response := old } prompt c m v hc hm hv
      hpos hlen hdec
    rw [(genLoop_spec E v (E.llama_vocab_n_tokens v) 32 _).1] at hq
    exact ⟨_, _, hq⟩
  · intro k hk
    have hs := s1 k hk
    simp only [stopAt, stopsBefore, eosStop, Bool.or_eq_false_iff,
      decide_eq_false_iff_not] at hs
    refine ⟨hs.1.1.1, hs.1.1.2, hs.1.2, ?_⟩
    intro hk1
    have hs1 := s1 (k + 1) hk1
    simp only [stopAt, Bool.or_eq_false_iff] at hs1
    exact hs1.2
  · intro h0
    exact firstStop_eq E v n_vocab c1 n 32 0 (Nat.zero_le _) (fun k hk => absurd hk (Nat.not_lt_zero k))
      (fun _ => by simp [stopAt, ctxAt, h0])
  · intro t ht
    simp [fragment, ht]
  · intro k hk hno hfail
    exact firstStop_eq E v n_vocab c1 n 32 (k + 1) (by omega)
      (fun j hj => hno j (by omega)) (fun _ => by simp [stopAt, hfail])

/-- C10 amended, on the prompt `hi` and the demo engine. -/
theorem response_is_selected_fragments_witness :
    readyState.context = some 0 ∧ readyState.model = some ()
      ∧ demoEngine.llama_model_get_vocab () = some ()
      ∧ 0 < (tokenizeResult demoEngine () readyState.knowledge_base "hi".toList).1
      ∧ (tokenizeResult demoEngine () readyState.knowledge_base "hi".toList).1 ≤ 512
      ∧ (demoEngine.llama_decode 0
          (promptBatch (promptTokens demoEngine () readyState.knowledge_base "hi".toList))).1 = 0
      ∧ (let n_vocab := demoEngine.llama_vocab_n_tokens ()
        let c1 := promptCtx demoEngine () readyState.knowledge_base "hi".toList 0
        let n := (promptTokens demoEngine () readyState.knowledge_base "hi".toList).length
        let K := firstStop demoEngine () n_vocab c1 n 32
        (∀ old : List Char, ∃ st calls,
            query demoEngine { readyState with last_model_response := old } (some "hi".toList)
              = some (((List.range K).map
                  (fun k => fragment demoEngine () (tokenAt demoEngine n_vocab c1 n k))).flatten,
                  st, calls))
        ∧ K ≤ 32
        ∧ (∀ k, k < K →
            nanStop demoEngine n_vocab (ctxAt demoEngine n_vocab c1 n k) = false
            ∧ rangeStop demoEngine n_vocab (ctxAt demoEngine n_vocab c1 n k) = false
            ∧ tokenAt demoEngine n_vocab c1 n k ≠ demoEngine.llama_vocab_eos ()
            ∧ (k + 1 < K → decodeFails demoEngine n_vocab c1 n k = false))
        ∧ (K < 32 → stopAt demoEngine () n_vocab c1 n K = true)
        ∧ (stopsBefore demoEngine () n_vocab c1 = true → K = 0)
        ∧ (∀ t, demoEngine.llama_vocab_get_text () t = none → fragment demoEngine () t = [])
        ∧ (∀ k, k < 32 → (∀ j, j ≤ k → stopAt demoEngine () n_vocab c1 n j = false) →
            decodeFails demoEngine n_vocab c1 n k = true → K = k + 1)
        ∧ ((∀ x y, demoEngine.isnan x = true ∨ demoEngine.isnan y = true →
              demoEngine.isnan (demoEngine.fadd x y) = true) →
            ∀ k, nanLogit demoEngine n_vocab (ctxAt demoEngine n_vocab c1 n k) = true →
              nanStop demoEngine n_vocab (ctxAt demoEngine n_vocab c1 n k) = true)) :=
  ⟨rfl, rfl, rfl, by decide, by decide, rfl,
    response_is_selected_fragments demoEngine readyState "hi".toList 0 () () rfl rfl rfl
      (by decide) (by decide) rfl⟩

end IntegratedLLM
